import Mathlib

/-!
# The message store of `mcp-memory-server`

A shallow embedding of `src/mcp-memory-server/main.go`: the package-level state
(`prevalenceLayer`, `messageIDCounter`, `messageKeys`), the id allocator, the save,
retrieval, retention, delete-all and search operations, followed by theorems about them.

Conventions of the embedding.

* The three package-level variables are threaded explicitly as a `State`; execution is
  single-threaded, so the mutex operations have no effect and are left out.
* Go's `int` is taken to be 64 bits wide and is modelled by `Int`; a value of type `int` lies
  in `[-2^63, 2^63)`. Where an operation of the program can leave that range (`maxID + 1`,
  `messageIDCounter++`, `len(messages) - n`) its result is wrapped with `wrapInt`. A count
  of the elements of a slice (`deletedCount++`) and `len(messages) - 3` cannot leave it.
* `time.Time` is modelled as an instant on a linear time line (`Int`, for instance
  nanoseconds); `t.Before(u)` is `t < u`, and `time.Now()` is an input of the handler that
  calls it.
* The result of a handler is kept structured: a `CallToolResult` records which text the
  handler produced and the values formatted into it, instead of the formatted string.
* Library code the program calls (`sort.Slice`, `strings.ToLower`) is taken through its
  contract, see `GoRuntime`; `strings.Fields`, `strings.Contains` and `strconv.Atoi` are
  written out from their documentation.
-/

namespace MemoryServer

/-! ## Data model -/

/-- The struct `Message` (main.go, lines 25-31). -/
structure Message where
  ID : Int
  Date : Int
  Content : String
  Role : String
  Agent : String
  deriving DecidableEq, Repr

/-- A value held by the persistence layer (an `interface{}` in Go): either a `Message`, the
only case in which the type assertion `value.(Message)` succeeds, or a value of any other
type. -/
inductive Value where
  | message (msg : Message)
  | other (tag : Nat)
  deriving DecidableEq, Repr

/-- Modelled from the spec: the persistence collaborator `artemia.PrevalenceLayer`, whose code
is not part of this repository. Spec section 6 gives its contract: a key-value store keyed by
string with `set(key, value)`, `get(key) -> (value, exists)` and `delete(key)`. -/
structure PrevalenceLayer where
  data : String → Option Value

/-- What a write to the persistence layer reports: that the value was stored, or that the
write failed. -/
inductive WriteOutcome where
  | stored
  | failed
  deriving DecidableEq, Repr

/-- Modelled from the spec: `get(key) -> (value, exists)`; `none` stands for `exists = false`. -/
def PrevalenceLayer.Get (p : PrevalenceLayer) (key : String) : Option Value :=
  p.data key

/-- Modelled from the spec: `set(key, value)`. The call yields the layer after it and whether
it reports a failure. The spec says that a write can fail and that the failure is reported
(section 4.2), and nothing of what the store holds after a failed write: the layer holds the
value under the key from the call on, whatever the call reports, the failure being that of
making the write durable. -/
def PrevalenceLayer.Set (p : PrevalenceLayer) (key : String) (value : Value)
    (w : WriteOutcome) : PrevalenceLayer × Bool :=
  (⟨fun k => if k = key then some value else p.data k⟩, decide (w = .failed))

/-- Modelled from the spec: `delete(key)`. -/
def PrevalenceLayer.Delete (p : PrevalenceLayer) (key : String) : PrevalenceLayer :=
  ⟨fun k => if k = key then none else p.data k⟩

/-- The package-level variables `prevalenceLayer`, `messageIDCounter` and `messageKeys`
(main.go, lines 33-35). -/
structure State where
  prevalenceLayer : PrevalenceLayer
  messageIDCounter : Int
  messageKeys : List String

/-- The value of type `int` that 64-bit two's-complement arithmetic gives for the
mathematical result `x`: `x` itself when it lies in `[-2^63, 2^63)`, and `x` reduced modulo
`2^64` into that range otherwise. -/
def wrapInt (x : Int) : Int :=
  (x + 2 ^ 63) % 2 ^ 64 - 2 ^ 63

/-- One value of the argument map of a tool call (`map[string]any`): JSON null, a string, an
`int` (a value in `[-2^63, 2^63)`), a `float64` (represented by the integer the conversion
`int(v)` gives), or a value of another type. -/
inductive Arg where
  | null
  | str (s : String)
  | int (v : Int)
  | float (v : Int)
  | other
  deriving DecidableEq, Repr

/-- The argument map `request.GetArguments()`; `none` for a key that is not present. -/
abbrev Arguments := String → Option Arg

/-- The errors the handlers return with `fmt.Errorf`, by message shape:
"missing required parameter 'p'", "parameter 'p' must be a string",
"parameter 'p' must be a valid integer", "parameter 'p' must be an integer". -/
inductive ToolError where
  | missingParameter (p : String)
  | mustBeString (p : String)
  | mustBeValidInteger (p : String)
  | mustBeInteger (p : String)
  deriving DecidableEq, Repr

/-- The text results built with `mcp.NewToolResultText`:
`saved id` is "Message saved with ID: id", `noMessagesFound` is "No messages found",
`noMatch` is "No messages found matching the keywords", `deletedAll n` is
"Deleted all n messages", `message m` is the JSON of one message and `messages ms` the JSON
of a slice of messages. -/
inductive CallToolResult where
  | saved (id : Int)
  | noMessagesFound
  | noMatch
  | deletedAll (n : Int)
  | message (m : Message)
  | messages (ms : List Message)
  deriving DecidableEq, Repr

/-- What a handler call ends with: `(result, nil)`, `(nil, err)`, or the run-time failure
"slice bounds out of range" of a slice expression. -/
inductive HandlerResult where
  | ok (r : CallToolResult)
  | err (e : ToolError)
  | sliceBoundsOutOfRange
  deriving DecidableEq, Repr

/-! ## Library functions -/

/-- The library functions taken through their contract.
`sortSlice messages` is `sort.Slice(messages, less)` with `less i j` the comparison
`messages[i].Date.Before(messages[j].Date)`: the result is a rearrangement of the input in
which no later element is `less` than an earlier one (the order of equal elements is not
specified by `sort.Slice`). `toLower` is `strings.ToLower`. -/
structure GoRuntime where
  sortSlice : List Message → List Message
  sortSlice_perm : ∀ l, (sortSlice l).Perm l
  sortSlice_sorted : ∀ l, (sortSlice l).Pairwise (fun a b => ¬ b.Date < a.Date)
  toLower : String → String

/-- `unicode.IsSpace`: the white space characters by code point. -/
def isSpace (c : Char) : Bool :=
  let n := c.toNat
  (9 ≤ n && n ≤ 13) || n = 32 || n = 0x85 || n = 0xA0 || n = 0x1680 ||
    (0x2000 ≤ n && n ≤ 0x200a) || n = 0x2028 || n = 0x2029 || n = 0x202f ||
    n = 0x205f || n = 0x3000

/-- The scan of `strings.Fields`: `cur` holds, reversed, the characters of the field in
progress. -/
def Fields.scan : List Char → List Char → List String
  | [], cur => if cur = [] then [] else [String.mk cur.reverse]
  | c :: cs, cur =>
    if isSpace c then
      if cur = [] then Fields.scan cs [] else String.mk cur.reverse :: Fields.scan cs []
    else Fields.scan cs (c :: cur)

/-- `strings.Fields`: the maximal runs of non-space characters, in order. -/
def Fields (s : String) : List String :=
  Fields.scan s.data []

/-- `strings.Contains s substr`: `substr` occurs within `s`. -/
def Contains (s substr : String) : Bool :=
  decide (substr.data <:+: s.data)

/-- The digit loop of `strconv.Atoi`: `n = n*10 + int(ch - 48)`, failing on a character
that is not a decimal digit. -/
def Atoi.digits : List Char → Nat → Option Nat
  | [], n => some n
  | ch :: rest, n =>
    if 48 ≤ ch.toNat ∧ ch.toNat ≤ 57 then Atoi.digits rest (n * 10 + (ch.toNat - 48))
    else none

/-- `strconv.Atoi` for a 64-bit `int`: an optional sign, then at least one decimal digit,
denoting a value in the range of `int`; `none` stands for a returned error. -/
def Atoi (s : String) : Option Int :=
  match s.data with
  | [] => none
  | c :: rest =>
    let body := if c = '-' ∨ c = '+' then rest else c :: rest
    if body = [] then none
    else
      match Atoi.digits body 0 with
      | none => none
      | some n =>
        let v : Int := if c = '-' then -(n : Int) else (n : Int)
        if -(2 : Int) ^ 63 ≤ v ∧ v < (2 : Int) ^ 63 then some v else none

/-! ## The id allocator and startup -/

/-- `getNextMessageID` (main.go, lines 160-175). -/
def getNextMessageID (prevalenceLayer : PrevalenceLayer) (messageKeys : List String) : Int :=
  let maxID : Int := messageKeys.foldl (fun maxID key =>
    match prevalenceLayer.Get key with
    | some (.message msg) => if msg.ID > maxID then msg.ID else maxID
    | _ => maxID) 0
  wrapInt (maxID + 1)

/-- The part of `main` (main.go, lines 58-67) that sets up the store: `persisted` is the
layer `artemia.NewPrevalenceLayer(storagePath)` returns, `messageKeys` still has the zero
value of its declaration `var messageKeys []string` (nothing assigns it before), and
`messageIDCounter = getNextMessageID()`. -/
def main (persisted : PrevalenceLayer) : State :=
  let messageKeys : List String := []
  { prevalenceLayer := persisted
    messageKeys := messageKeys
    messageIDCounter := getNextMessageID persisted messageKeys }

/-! ## Save -/

/-- The key `fmt.Sprintf("message_%d", id)`. -/
def messageKey (id : Int) : String :=
  "message_" ++ toString id

/-- `saveMessageHandler` (main.go, lines 177-222). `now` is the value of `time.Now()` and `w`
the outcome of the write `prevalenceLayer.Set(key, message)`, whose result the handler does
not look at. -/
def saveMessageHandler (s : State) (args : Arguments) (now : Int) (w : WriteOutcome) :
    HandlerResult × State :=
  match args "content" with
  | none => (.err (.missingParameter "content"), s)
  | some .null => (.err (.missingParameter "content"), s)
  | some (.str content) =>
    let role : String :=
      match args "role" with
      | some (.str r) => r
      | _ => "assistant"
    let agent : String :=
      match args "agent" with
      | some (.str a) => a
      | _ => "unknown"
    let message : Message :=
      { ID := s.messageIDCounter, Date := now, Content := content, Role := role, Agent := agent }
    let key := messageKey s.messageIDCounter
    let layer := (s.prevalenceLayer.Set key (.message message) w).1
    (.ok (.saved message.ID),
      { prevalenceLayer := layer
        messageKeys := s.messageKeys ++ [key]
        messageIDCounter := wrapInt (s.messageIDCounter + 1) })
  | some _ => (.err (.mustBeString "content"), s)

/-! ## Retrieval -/

/-- The loop of `getAllMessagesSorted` (main.go, lines 367-374): the messages the indexed
keys resolve to, in index order. -/
def resolveKeys (prevalenceLayer : PrevalenceLayer) (messageKeys : List String) :
    List Message :=
  messageKeys.foldl (fun messages key =>
    match prevalenceLayer.Get key with
    | some (.message msg) => messages ++ [msg]
    | _ => messages) []

/-- `getAllMessagesSorted` (main.go, lines 364-382). -/
def getAllMessagesSorted (R : GoRuntime) (s : State) : List Message :=
  R.sortSlice (resolveKeys s.prevalenceLayer s.messageKeys)

/-- The slice expression `messages[start:]`: it fails at run time unless
`0 ≤ start ≤ len(messages)`. -/
def sliceFrom (messages : List Message) (start : Int) : Option (List Message) :=
  if 0 ≤ start ∧ start ≤ messages.length then some (messages.drop start.toNat) else none

/-- `getLastMessageHandler` (main.go, lines 224-237). -/
def getLastMessageHandler (R : GoRuntime) (s : State) : HandlerResult :=
  let messages := getAllMessagesSorted R s
  if messages.length = 0 then .ok .noMessagesFound
  else
    match messages[messages.length - 1]? with
    | some lastMessage => .ok (.message lastMessage)
    | none => .sliceBoundsOutOfRange

/-- `getLast3MessagesHandler` (main.go, lines 239-257). -/
def getLast3MessagesHandler (R : GoRuntime) (s : State) : HandlerResult :=
  let messages := getAllMessagesSorted R s
  if messages.length = 0 then .ok .noMessagesFound
  else
    let start : Int := (messages.length : Int) - 3
    let start : Int := if start < 0 then 0 else start
    match sliceFrom messages start with
    | some lastMessages => .ok (.messages lastMessages)
    | none => .sliceBoundsOutOfRange

/-- The type switch on the argument `n` in `getLastNMessagesHandler` (main.go, lines
267-281). -/
def getLastNMessagesHandler.parse (nArg : Arg) : Except ToolError Int :=
  match nArg with
  | .int v => .ok v
  | .float v => .ok v
  | .str v =>
    match Atoi v with
    | some n => .ok n
    | none => .error (.mustBeValidInteger "n")
  | _ => .error (.mustBeInteger "n")

/-- The difference `len(messages) - n` of `int`s (main.go, line 288). The length is a
non-negative `int`: with `n ≥ 0` the difference cannot leave the range of `int`, with
`n < 0` it can, and then wraps. -/
def getLastNMessagesHandler.start (len : Nat) (n : Int) : Int :=
  if n < 0 then wrapInt ((len : Int) - n) else (len : Int) - n

/-- `getLastNMessagesHandler` (main.go, lines 259-300). -/
def getLastNMessagesHandler (R : GoRuntime) (s : State) (args : Arguments) : HandlerResult :=
  match args "n" with
  | none => .err (.missingParameter "n")
  | some .null => .err (.missingParameter "n")
  | some nArg =>
    match getLastNMessagesHandler.parse nArg with
    | .error e => .err e
    | .ok n =>
      let messages := getAllMessagesSorted R s
      if messages.length = 0 then .ok .noMessagesFound
      else
        let start : Int := getLastNMessagesHandler.start messages.length n
        let start : Int := if start < 0 then 0 else start
        match sliceFrom messages start with
        | some lastMessages => .ok (.messages lastMessages)
        | none => .sliceBoundsOutOfRange

/-! ## Retention and delete-all -/

/-- The state of the loop of `deleteOlderThan`: the layer, `newKeys` and `deletedCount`. -/
structure DeleteLoop where
  layer : PrevalenceLayer
  newKeys : List String
  deletedCount : Int

/-- One iteration of the loop of `deleteOlderThan` (main.go, lines 391-405). -/
def deleteOlderThan.iter (cutoffTime : Int) (acc : DeleteLoop) (key : String) : DeleteLoop :=
  match acc.layer.Get key with
  | some (.message msg) =>
    if msg.Date < cutoffTime then
      { layer := acc.layer.Delete key, newKeys := acc.newKeys,
        deletedCount := acc.deletedCount + 1 }
    else
      { layer := acc.layer, newKeys := acc.newKeys ++ [key],
        deletedCount := acc.deletedCount }
  | some _ =>
    { layer := acc.layer, newKeys := acc.newKeys ++ [key], deletedCount := acc.deletedCount }
  | none => acc

/-- `deleteOlderThan` (main.go, lines 384-409): the returned count and the state after. -/
def deleteOlderThan (s : State) (cutoffTime : Int) : Int × State :=
  let final := s.messageKeys.foldl (deleteOlderThan.iter cutoffTime)
    { layer := s.prevalenceLayer, newKeys := [], deletedCount := 0 }
  (final.deletedCount,
    { prevalenceLayer := final.layer
      messageKeys := final.newKeys
      messageIDCounter := s.messageIDCounter })

/-- `deleteAllMessagesHandler` (main.go, lines 411-426). -/
def deleteAllMessagesHandler (s : State) : HandlerResult × State :=
  let final : PrevalenceLayer × Int := s.messageKeys.foldl
    (fun acc key => (acc.1.Delete key, acc.2 + 1)) (s.prevalenceLayer, 0)
  (.ok (.deletedAll final.2),
    { prevalenceLayer := final.1
      messageKeys := []
      messageIDCounter := s.messageIDCounter })

/-! ## Search -/

/-- The loop of `containsKeywords` over `keywordList` (main.go, lines 467-472). -/
def containsKeywords.loop (contentLower : String) : List String → Bool
  | [] => false
  | keyword :: rest =>
    if Contains contentLower keyword then true else containsKeywords.loop contentLower rest

/-- `containsKeywords` (main.go, lines 462-473). -/
def containsKeywords (R : GoRuntime) (content keywords : String) : Bool :=
  let contentLower := R.toLower content
  let keywordsLower := R.toLower keywords
  let keywordList := Fields keywordsLower
  containsKeywords.loop contentLower keywordList

/-- `searchMessagesHandler` (main.go, lines 428-460). -/
def searchMessagesHandler (R : GoRuntime) (s : State) (args : Arguments) : HandlerResult :=
  match args "keywords" with
  | none => .err (.missingParameter "keywords")
  | some .null => .err (.missingParameter "keywords")
  | some (.str keywords) =>
    let messages := getAllMessagesSorted R s
    let matchingMessages : List Message := messages.foldl (fun matchingMessages message =>
      if containsKeywords R message.Content keywords then matchingMessages ++ [message]
      else matchingMessages) []
    if matchingMessages.length = 0 then .ok .noMatch
    else .ok (.messages matchingMessages)
  | some _ => .err (.mustBeString "keywords")

/-! ## Sequences of operations -/

/-- One operation on the store, with the inputs it reads from its environment. -/
inductive Op where
  | save_message (args : Arguments) (now : Int) (w : WriteOutcome)
  | get_last_message
  | get_last_3_messages
  | get_last_n_messages (args : Arguments)
  | deleteOlderThan (cutoffTime : Int)
  | delete_all_messages
  | search_messages (args : Arguments)

/-- What an operation hands back: the outcome of a handler, or the count `deleteOlderThan`
returns. -/
inductive Response where
  | handler (r : HandlerResult)
  | count (n : Int)
  deriving DecidableEq, Repr

/-- Run one operation. -/
def step (R : GoRuntime) (s : State) : Op → Response × State
  | .save_message args now w =>
    let r := saveMessageHandler s args now w
    (.handler r.1, r.2)
  | .get_last_message => (.handler (getLastMessageHandler R s), s)
  | .get_last_3_messages => (.handler (getLast3MessagesHandler R s), s)
  | .get_last_n_messages args => (.handler (getLastNMessagesHandler R s args), s)
  | .deleteOlderThan cutoffTime =>
    let r := deleteOlderThan s cutoffTime
    (.count r.1, r.2)
  | .delete_all_messages =>
    let r := deleteAllMessagesHandler s
    (.handler r.1, r.2)
  | .search_messages args => (.handler (searchMessagesHandler R s args), s)

/-- Run a sequence of operations in order: the responses, and the final state. -/
def run (R : GoRuntime) (s : State) : List Op → List Response × State
  | [] => ([], s)
  | op :: ops =>
    let r := step R s op
    let rest := run R r.2 ops
    (r.1 :: rest.1, rest.2)

/-- The id a response carries when it is the result of a successful `save_message`. -/
def savedId : Response → Option Int
  | .handler (.ok (.saved id)) => some id
  | _ => none

/-- The ids returned by the successful `save_message` calls of a run, in call order. -/
def savedIds (R : GoRuntime) (s : State) (ops : List Op) : List Int :=
  (run R s ops).1.filterMap savedId

/-! ## A runtime to evaluate with -/

/-- A runtime for evaluating the definitions on concrete inputs: insertion sort by `Date`,
and lower-casing of the letters `A`-`Z`. -/
def refRuntime : GoRuntime where
  sortSlice := List.insertionSort (fun a b : Message => a.Date ≤ b.Date)
  sortSlice_perm := fun l => List.perm_insertionSort _ l
  sortSlice_sorted := fun l => by
    have total : IsTotal Message (fun a b => a.Date ≤ b.Date) :=
      ⟨fun a b => le_total a.Date b.Date⟩
    have trans : IsTrans Message (fun a b => a.Date ≤ b.Date) :=
      ⟨fun _ _ _ hab hbc => le_trans hab hbc⟩
    have h := List.sorted_insertionSort (fun a b : Message => a.Date ≤ b.Date) l
    exact List.Pairwise.imp (fun hab => not_lt.mpr hab) h
  toLower := fun s => String.mk (s.data.map Char.toLower)

/-! ## Reference notions the theorems are stated with -/

/-- The `Message` record a key resolves to through the store; `none` when the key does not
resolve, or resolves to a value that is not a `Message`. -/
def resolvesTo (p : PrevalenceLayer) (key : String) : Option Message :=
  match p.Get key with
  | some (.message msg) => some msg
  | _ => none

/-- The records obtained by resolving each indexed key through the store, a key that does
not resolve to a `Message` contributing nothing. -/
def indexedRecords (p : PrevalenceLayer) (messageKeys : List String) : List Message :=
  messageKeys.filterMap (resolvesTo p)

/-- The key resolves through the store to a `Message` whose timestamp is strictly before
the cutoff. -/
def olderThan (p : PrevalenceLayer) (cutoffTime : Int) (key : String) : Bool :=
  match resolvesTo p key with
  | some msg => decide (msg.Date < cutoffTime)
  | none => false

/-- The number of `Message` records the store holds under the indexed keys (a record is
counted once, also when its key occurs twice in the index). -/
def storedCount (p : PrevalenceLayer) (messageKeys : List String) : Nat :=
  (messageKeys.filter (fun k => (resolvesTo p k).isSome)).dedup.length

/-- The invariant of the loop of `deleteOlderThan` once the keys `done` have been visited,
starting from the layer `p`. -/
structure DeleteLoop.Inv (p : PrevalenceLayer) (cutoffTime : Int) (done : List String)
    (acc : DeleteLoop) : Prop where
  layer : ∀ k, acc.layer.Get k =
    if k ∈ done ∧ olderThan p cutoffTime k = true then none else p.Get k
  newKeys : acc.newKeys = done.filter (fun k => !olderThan p cutoffTime k)
  deletedCount : acc.deletedCount = ((done.filter (olderThan p cutoffTime)).dedup.length : Int)

/-- An argument map with the given `content`, `role` and `agent` strings. -/
def saveArgs (content role agent : String) : Arguments := fun k =>
  if k = "content" then some (.str content)
  else if k = "role" then some (.str role)
  else if k = "agent" then some (.str agent)
  else none

/-- The argument map that holds just `value` under `name`. -/
def oneArg (name : String) (value : Arg) : Arguments := fun k =>
  if k = name then some value else none

/-- A persisted layer that holds one record, of id 5, under its key `message_5`. -/
def persistedExample : PrevalenceLayer :=
  ⟨fun k => if k = "message_5" then
    some (.message { ID := 5, Date := 100, Content := "kept", Role := "user", Agent := "bot-1" })
    else none⟩

/-- The empty store as `main` leaves it when nothing was persisted. -/
def emptyState : State :=
  { prevalenceLayer := ⟨fun _ => none⟩, messageIDCounter := 1, messageKeys := [] }

/-- The store after one `save_message` at the instant 10 on the empty store. -/
def oneSaved : State :=
  (saveMessageHandler emptyState (saveArgs "one" "user" "A") 10 .stored).2

/-- The store after three `save_message` calls, at the instants 10, 20 and 30. -/
def threeSaved : State :=
  (saveMessageHandler
    (saveMessageHandler oneSaved (saveArgs "two" "user" "B") 20 .stored).2
    (saveArgs "three" "user" "A") 30 .stored).2

/-! ## The key index along a run of mutations -/

/-- The operations that change the store: `save_message` (with the instant of the call and
the outcome of its write), `deleteOlderThan` and `delete_all_messages`. -/
inductive Mutation where
  | save_message (args : Arguments) (now : Int) (w : WriteOutcome)
  | deleteOlderThan (cutoffTime : Int)
  | delete_all_messages

/-- The state after one mutation. -/
def applyMutation (s : State) : Mutation → State
  | .save_message args now w => (saveMessageHandler s args now w).2
  | .deleteOlderThan cutoffTime => (deleteOlderThan s cutoffTime).2
  | .delete_all_messages => (deleteAllMessagesHandler s).2

/-- The state after a sequence of mutations, applied in order. -/
def applyAll (s : State) (ms : List Mutation) : State :=
  ms.foldl applyMutation s

/-- A state whose key index is empty, over any store and any value of the counter. -/
def emptyIndex (p : PrevalenceLayer) (counter : Int) : State :=
  { prevalenceLayer := p, messageIDCounter := counter, messageKeys := [] }

/-- The number of `save_message` operations of a sequence of mutations. -/
def saveCount : List Mutation → Nat
  | [] => 0
  | .save_message _ _ _ :: ms => saveCount ms + 1
  | _ :: ms => saveCount ms

/-- The invariant of the key index after `k` successful saves from the counter `c0`: the
counter is `c0 + k` in wrapping arithmetic, no key occurs twice, and every key is the key
`message_<id>` of the id of one of these saves and resolves to a `Message` of that id. -/
def KeyIndexInv (c0 : Int) (k : Nat) (s : State) : Prop :=
  s.messageIDCounter = wrapInt (c0 + k) ∧ s.messageKeys.Nodup ∧
    ∀ key ∈ s.messageKeys, ∃ i : Nat, i < k ∧ key = messageKey (wrapInt (c0 + i)) ∧
      ∃ msg, s.prevalenceLayer.Get key = some (.message msg) ∧ msg.ID = wrapInt (c0 + i)

/-- The number a sequence of decimal digits denotes, most significant digit first. -/
def decodeDigits (cs : List Char) : Nat :=
  cs.foldl (fun n ch => n * 10 + (ch.toNat - 48)) 0

/-- The integer a `%d` rendering denotes: an optional minus sign, then decimal digits. -/
def decodeInt (cs : List Char) : Int :=
  match cs with
  | [] => 0
  | c :: rest =>
    if c = '-' then -(decodeDigits rest : Int) else (decodeDigits (c :: rest) : Int)

/-- The id read back from a key of the form `message_<id>` (the 8 characters of
`message_` are skipped). -/
def keyId (key : String) : Int :=
  decodeInt (key.data.drop 8)

/-- Two `save_message` mutations, at the instants 10 and 20. -/
def twoSaves : List Mutation :=
  [.save_message (saveArgs "one" "user" "A") 10 .stored,
   .save_message (saveArgs "two" "user" "B") 20 .failed]

/-- An argument map with the content "ping", the role "user" and no agent. -/
def roleOnlyArgs : Arguments := fun k =>
  if k = "content" then some (.str "ping")
  else if k = "role" then some (.str "user")
  else none

/-- A run of three saves, with a `delete_all_messages` and a `get_last_message` in
between. -/
def threeSavesRun : List Op :=
  [.save_message (saveArgs "one" "user" "A") 10 .stored,
   .delete_all_messages,
   .save_message (saveArgs "two" "user" "B") 20 .failed,
   .get_last_message,
   .save_message (saveArgs "three" "user" "A") 30 .stored]

/-- A sequence of `n` `save_message` mutations with the same arguments. -/
def manySaves (n : Nat) : List Mutation :=
  List.replicate n (.save_message (saveArgs "one" "user" "A") 10 .stored)

/-! ## Arithmetic of `int` -/

theorem wrapInt_of_range {x : Int} (h1 : -2 ^ 63 ≤ x) (h2 : x < 2 ^ 63) : wrapInt x = x := by
  unfold wrapInt
  omega

theorem wrapInt_range (x : Int) : -2 ^ 63 ≤ wrapInt x ∧ wrapInt x < 2 ^ 63 := by
  unfold wrapInt
  omega

theorem wrapInt_wrapInt_add (x y : Int) : wrapInt (wrapInt x + y) = wrapInt (x + y) := by
  unfold wrapInt
  omega

theorem wrapInt_add_inj {a : Int} {i j : Nat} (h : wrapInt (a + i) = wrapInt (a + j))
    (hi : i < 2 ^ 64) (hj : j < 2 ^ 64) : i = j := by
  unfold wrapInt at h
  omega

/-! ## Id allocation along a run -/

theorem savedId_getLastMessageHandler (R : GoRuntime) (s : State) :
    savedId (.handler (getLastMessageHandler R s)) = none := by
  unfold getLastMessageHandler
  simp only
  split
  · rfl
  · split <;> rfl

theorem savedId_getLast3MessagesHandler (R : GoRuntime) (s : State) :
    savedId (.handler (getLast3MessagesHandler R s)) = none := by
  unfold getLast3MessagesHandler
  simp only
  split
  · rfl
  · split <;> rfl

theorem savedId_getLastNMessagesHandler (R : GoRuntime) (s : State) (args : Arguments) :
    savedId (.handler (getLastNMessagesHandler R s args)) = none := by
  unfold getLastNMessagesHandler
  split
  · rfl
  · rfl
  · split
    · rfl
    · simp only
      split
      · rfl
      · split <;> rfl

theorem savedId_searchMessagesHandler (R : GoRuntime) (s : State) (args : Arguments) :
    savedId (.handler (searchMessagesHandler R s args)) = none := by
  unfold searchMessagesHandler
  split
  · rfl
  · rfl
  · simp only
    split <;> rfl
  · rfl

/-- A `save_message` call either fails on its `content` argument and leaves the state as it
was, or reports the counter as the id, stores the message under its key, appends the key and
advances the counter. -/
theorem saveMessageHandler_cases (s : State) (args : Arguments) (now : Int)
    (w : WriteOutcome) :
    ((∃ e, (saveMessageHandler s args now w).1 = .err e) ∧
        (saveMessageHandler s args now w).2 = s) ∨
      ∃ msg : Message, msg.ID = s.messageIDCounter ∧
        saveMessageHandler s args now w =
          (.ok (.saved s.messageIDCounter),
            { prevalenceLayer :=
                (s.prevalenceLayer.Set (messageKey s.messageIDCounter) (.message msg) w).1
              messageKeys := s.messageKeys ++ [messageKey s.messageIDCounter]
              messageIDCounter := wrapInt (s.messageIDCounter + 1) }) := by
  unfold saveMessageHandler
  split
  · exact Or.inl ⟨⟨_, rfl⟩, rfl⟩
  · exact Or.inl ⟨⟨_, rfl⟩, rfl⟩
  · exact Or.inr ⟨_, rfl, rfl⟩
  · exact Or.inl ⟨⟨_, rfl⟩, rfl⟩

/-- An operation either returns no id and keeps the counter, or returns the counter as the
id and advances the counter by one, wrapping around. -/
theorem step_cases (R : GoRuntime) (s : State) (op : Op) :
    (savedId (step R s op).1 = none ∧
        (step R s op).2.messageIDCounter = s.messageIDCounter) ∨
      (savedId (step R s op).1 = some s.messageIDCounter ∧
        (step R s op).2.messageIDCounter = wrapInt (s.messageIDCounter + 1)) := by
  cases op with
  | save_message args now w =>
    simp only [step]
    rcases saveMessageHandler_cases s args now w with ⟨⟨e, he⟩, hs⟩ | ⟨msg, _, hs⟩
    · left
      rw [he, hs]
      exact ⟨rfl, rfl⟩
    · right
      rw [hs]
      exact ⟨rfl, rfl⟩
  | get_last_message => exact Or.inl ⟨savedId_getLastMessageHandler R s, rfl⟩
  | get_last_3_messages => exact Or.inl ⟨savedId_getLast3MessagesHandler R s, rfl⟩
  | get_last_n_messages args => exact Or.inl ⟨savedId_getLastNMessagesHandler R s args, rfl⟩
  | deleteOlderThan c => exact Or.inl ⟨rfl, rfl⟩
  | delete_all_messages => exact Or.inl ⟨rfl, rfl⟩
  | search_messages args => exact Or.inl ⟨savedId_searchMessagesHandler R s args, rfl⟩

theorem savedIds_cons (R : GoRuntime) (s : State) (op : Op) (ops : List Op) :
    savedIds R s (op :: ops) =
      (savedId (step R s op).1).toList ++ savedIds R (step R s op).2 ops := by
  simp only [savedIds, run, List.filterMap_cons]
  cases savedId (step R s op).1 <;> simp

/-- From a counter `c` that is an `int`, the ids a run returns are `c`, `c + 1`, ... in
wrapping arithmetic. -/
theorem savedIds_eq_map (R : GoRuntime) (ops : List Op) :
    ∀ s : State, -2 ^ 63 ≤ s.messageIDCounter → s.messageIDCounter < 2 ^ 63 →
      ∃ n : Nat, savedIds R s ops =
        (List.range n).map (fun i : Nat => wrapInt (s.messageIDCounter + i)) := by
  induction ops with
  | nil => intro s _ _; exact ⟨0, by simp [savedIds, run]⟩
  | cons op ops ih =>
    intro s h1 h2
    rw [savedIds_cons]
    rcases step_cases R s op with ⟨hid, hcounter⟩ | ⟨hid, hcounter⟩
    · obtain ⟨n, hn⟩ := ih (step R s op).2 (by rw [hcounter]; exact h1)
        (by rw [hcounter]; exact h2)
      refine ⟨n, ?_⟩
      rw [hid, hn, hcounter]
      rfl
    · have hr := wrapInt_range (s.messageIDCounter + 1)
      obtain ⟨n, hn⟩ := ih (step R s op).2 (by rw [hcounter]; exact hr.1)
        (by rw [hcounter]; exact hr.2)
      refine ⟨n + 1, ?_⟩
      rw [hid, hn, hcounter, List.range_succ_eq_map]
      simp only [Option.toList, List.singleton_append, List.map_cons, List.map_map]
      congr 1
      · have := wrapInt_of_range h1 h2
        simpa using this.symm
      · apply List.map_congr_left
        intro i _
        simp only [Function.comp, wrapInt_wrapInt_add]
        congr 1
        push_cast
        ring

/-- C1, counterexample. From a counter at the largest `int`, two `save_message` calls return
9223372036854775807 and then -9223372036854775808: the ids are not increasing. -/
theorem saved_ids_wrap_counterexample :
    savedIds refRuntime (emptyIndex ⟨fun _ => none⟩ 9223372036854775807)
        [.save_message (saveArgs "one" "user" "A") 10 .stored,
         .save_message (saveArgs "two" "user" "B") 20 .stored] =
        [9223372036854775807, -9223372036854775808] ∧
      ¬ (savedIds refRuntime (emptyIndex ⟨fun _ => none⟩ 9223372036854775807)
        [.save_message (saveArgs "one" "user" "A") 10 .stored,
         .save_message (saveArgs "two" "user" "B") 20 .stored]).Pairwise
          (fun a b => a < b) := by
  have h : savedIds refRuntime (emptyIndex ⟨fun _ => none⟩ 9223372036854775807)
        [.save_message (saveArgs "one" "user" "A") 10 .stored,
         .save_message (saveArgs "two" "user" "B") 20 .stored] =
        [9223372036854775807, -9223372036854775808] := by decide
  refine ⟨h, ?_⟩
  rw [h]
  decide

/-- C1, amended. In single-threaded execution, from every state whose counter is an `int`
and along every finite sequence of operations: the ids returned by the successful
`save_message` calls are strictly increasing in call order as long as the counter does not
pass the largest `int` between them (the counter plus the number of ids is at most `2^63`),
and they are pairwise distinct as long as there are at most `2^64` of them, so that an id
handed out before a `deleteOlderThan` or a `delete_all_messages` is not handed out again. -/
theorem saved_ids_strictly_increasing (R : GoRuntime) (s : State) (ops : List Op)
    (hmin : -2 ^ 63 ≤ s.messageIDCounter) (hmax : s.messageIDCounter < 2 ^ 63) :
    (s.messageIDCounter + (savedIds R s ops).length ≤ 2 ^ 63 →
        (savedIds R s ops).Pairwise (fun a b => a < b)) ∧
      ((savedIds R s ops).length ≤ 2 ^ 64 → (savedIds R s ops).Nodup) := by
  obtain ⟨n, hn⟩ := savedIds_eq_map R ops s hmin hmax
  rw [hn]
  simp only [List.length_map, List.length_range]
  constructor
  · intro hbound
    rw [List.pairwise_map]
    refine List.Pairwise.imp_of_mem ?_ (List.pairwise_lt_range n)
    intro i j hi hj hij
    rw [List.mem_range] at hi hj
    rw [wrapInt_of_range (by omega) (by omega), wrapInt_of_range (by omega) (by omega)]
    omega
  · intro hbound
    refine List.Nodup.map_on ?_ (List.nodup_range n)
    intro i hi j hj hij
    rw [List.mem_range] at hi hj
    exact wrapInt_add_inj hij (by omega) (by omega)

/-- Witness of the amended C1: three saves, with a `delete_all_messages` and a retrieval in
between, from the counter 1. -/
theorem saved_ids_strictly_increasing_witness :
    (savedIds refRuntime emptyState threeSavesRun).Pairwise (fun a b => a < b) ∧
      (savedIds refRuntime emptyState threeSavesRun).Nodup :=
  ⟨(saved_ids_strictly_increasing refRuntime emptyState threeSavesRun (by decide)
      (by decide)).1 (by decide),
    (saved_ids_strictly_increasing refRuntime emptyState threeSavesRun (by decide)
      (by decide)).2 (by decide)⟩

/-! ## Startup -/

theorem getNextMessageID_foldl (p : PrevalenceLayer) (keys : List String) (bound : Int)
    (hbound : ∀ key ∈ keys, ∀ msg, p.Get key = some (.message msg) → msg.ID ≤ bound) :
    ∀ maxID : Int, maxID ≤ bound →
      maxID ≤ keys.foldl (fun maxID key =>
        match p.Get key with
        | some (.message msg) => if msg.ID > maxID then msg.ID else maxID
        | _ => maxID) maxID ∧
      keys.foldl (fun maxID key =>
        match p.Get key with
        | some (.message msg) => if msg.ID > maxID then msg.ID else maxID
        | _ => maxID) maxID ≤ bound ∧
      ∀ key ∈ keys, ∀ msg, p.Get key = some (.message msg) →
        msg.ID ≤ keys.foldl (fun maxID key =>
          match p.Get key with
          | some (.message msg) => if msg.ID > maxID then msg.ID else maxID
          | _ => maxID) maxID := by
  induction keys with
  | nil => intro maxID h; simpa using h
  | cons k ks ih =>
    intro maxID hmax
    have hks : ∀ key ∈ ks, ∀ msg, p.Get key = some (.message msg) → msg.ID ≤ bound :=
      fun key hkey => hbound key (List.mem_cons_of_mem _ hkey)
    have hstep : maxID ≤ (match p.Get k with
        | some (.message msg) => if msg.ID > maxID then msg.ID else maxID
        | _ => maxID) ∧
        (match p.Get k with
        | some (.message msg) => if msg.ID > maxID then msg.ID else maxID
        | _ => maxID) ≤ bound ∧
        ∀ msg, p.Get k = some (.message msg) → msg.ID ≤ (match p.Get k with
        | some (.message msg) => if msg.ID > maxID then msg.ID else maxID
        | _ => maxID) := by
      split
      · rename_i msg hget
        have := hbound k (by simp) msg hget
        refine ⟨by split_ifs <;> omega, by split_ifs <;> omega, ?_⟩
        intro msg1 h1
        have : msg1 = msg := by
          rw [hget] at h1
          injection h1 with h1
          injection h1 with h1
          exact h1.symm
        subst this
        split_ifs <;> omega
      · rename_i hno
        refine ⟨le_refl _, hmax, ?_⟩
        intro msg1 h1
        exact absurd h1 (hno msg1)
    obtain ⟨h1, h2, h3⟩ := ih hks _ hstep.2.1
    simp only [List.foldl_cons, List.mem_cons]
    refine ⟨le_trans hstep.1 h1, h2, ?_⟩
    intro key hkey msg hmsg
    rcases hkey with hkey | hkey
    · subst hkey
      exact le_trans (hstep.2.2 msg hmsg) h1
    · exact h3 key hkey msg hmsg

/-- When it is given the keys of the stored records, and their ids are below the largest
`int`, `getNextMessageID` returns an id above the id of every record they resolve to. -/
theorem getNextMessageID_gt (p : PrevalenceLayer) (keys : List String)
    (hbound : ∀ key ∈ keys, ∀ msg, p.Get key = some (.message msg) → msg.ID ≤ 2 ^ 63 - 2)
    (key : String) (msg : Message) (hkey : key ∈ keys)
    (hmsg : p.Get key = some (.message msg)) :
    msg.ID < getNextMessageID p keys := by
  obtain ⟨h1, h2, h3⟩ := getNextMessageID_foldl p keys (2 ^ 63 - 2) hbound 0 (by norm_num)
  have := h3 key hkey msg hmsg
  simp only [getNextMessageID]
  rw [wrapInt_of_range (by omega) (by omega)]
  omega

theorem main_messageIDCounter (persisted : PrevalenceLayer) :
    (main persisted).messageIDCounter = 1 := by
  simp [main, getNextMessageID, wrapInt]

/-- C2. Evaluation of startup on a persisted store that holds a record of id 5: `main` sets
`messageIDCounter` to 1, not to 6, and the first `save_message` is assigned the id 1, which
is not greater than 5. -/
theorem main_counter_at_persisted_record :
    persistedExample.Get (messageKey 5) =
        some (.message { ID := 5, Date := 100, Content := "kept", Role := "user",
                         Agent := "bot-1" }) ∧
      (main persistedExample).messageIDCounter = 1 ∧
      (saveMessageHandler (main persistedExample) (saveArgs "ping" "user" "bot-1") 200
        .stored).1 = .ok (.saved 1) := by
  refine ⟨by decide, by decide, by decide⟩

/-! ## Retrieval -/

theorem resolveKeys_foldl (p : PrevalenceLayer) (keys : List String) :
    ∀ acc : List Message,
      keys.foldl (fun messages key =>
        match p.Get key with
        | some (.message msg) => messages ++ [msg]
        | _ => messages) acc = acc ++ indexedRecords p keys := by
  induction keys with
  | nil => intro acc; simp [indexedRecords]
  | cons k ks ih =>
    intro acc
    simp only [List.foldl_cons, ih, indexedRecords, List.filterMap_cons, resolvesTo]
    split <;> simp_all

theorem resolveKeys_eq (p : PrevalenceLayer) (keys : List String) :
    resolveKeys p keys = indexedRecords p keys := by
  simpa [resolveKeys] using resolveKeys_foldl p keys []

theorem getAllMessagesSorted_sorted (R : GoRuntime) (s : State) :
    (getAllMessagesSorted R s).Pairwise (fun a b => a.Date ≤ b.Date) :=
  (R.sortSlice_sorted _).imp (fun h => not_lt.mp h)

theorem getAllMessagesSorted_perm (R : GoRuntime) (s : State) :
    (getAllMessagesSorted R s).Perm (indexedRecords s.prevalenceLayer s.messageKeys) := by
  unfold getAllMessagesSorted
  rw [resolveKeys_eq]
  exact R.sortSlice_perm _

/-- C4. `getAllMessagesSorted` returns, for every key index and every content of the store,
a sequence ordered by non-decreasing timestamp that is a rearrangement of exactly the
`Message` records the indexed keys resolve to; a key that does not resolve, or not to a
`Message`, contributes nothing (the function is total: such a key causes no failure). -/
theorem getAllMessagesSorted_sorted_perm (R : GoRuntime) (s : State) :
    (getAllMessagesSorted R s).Pairwise (fun a b => a.Date ≤ b.Date) ∧
      (getAllMessagesSorted R s).Perm (indexedRecords s.prevalenceLayer s.messageKeys) :=
  ⟨getAllMessagesSorted_sorted R s, getAllMessagesSorted_perm R s⟩

theorem mem_getAllMessagesSorted (R : GoRuntime) (s : State) (m : Message) :
    m ∈ getAllMessagesSorted R s ↔ m ∈ indexedRecords s.prevalenceLayer s.messageKeys :=
  (getAllMessagesSorted_perm R s).mem_iff

theorem le_last_of_sorted {l : List Message} {x : Message}
    (h : l.Pairwise (fun a b => a.Date ≤ b.Date)) (hx : l.getLast? = some x) :
    ∀ y ∈ l, y.Date ≤ x.Date := by
  have hl : l.dropLast ++ [x] = l := List.dropLast_append_getLast? x hx
  rw [← hl, List.pairwise_append] at h
  intro y hy
  rw [← hl, List.mem_append] at hy
  rcases hy with hy | hy
  · exact h.2.2 y hy x (by simp)
  · simp at hy; rw [hy]

theorem getLastMessageHandler_eq (R : GoRuntime) (s : State) :
    getLastMessageHandler R s =
      match (getAllMessagesSorted R s).getLast? with
      | some lastMessage => .ok (.message lastMessage)
      | none => .ok .noMessagesFound := by
  unfold getLastMessageHandler
  simp only [← List.getLast?_eq_getElem?]
  cases hl : getAllMessagesSorted R s with
  | nil => simp
  | cons a l =>
    have : (a :: l).getLast? = some ((a :: l).getLast (by simp)) := List.getLast?_eq_getLast _ _
    simp [this]

/-- C3. Round trip. In a state whose indexed messages all have a timestamp strictly earlier
than the save instant `now`, a `save_message` with string arguments `content`, `role` and
`agent` reports the id of the counter, whatever its write reports, and a `get_last_message`
right after returns the message just saved: that id, the timestamp `now`, and the three
arguments. -/
theorem save_then_get_last (R : GoRuntime) (s : State) (args : Arguments) (now : Int)
    (w : WriteOutcome) (content role agent : String)
    (hc : args "content" = some (.str content)) (hr : args "role" = some (.str role))
    (ha : args "agent" = some (.str agent))
    (hold : ∀ key ∈ s.messageKeys, ∀ msg, resolvesTo s.prevalenceLayer key = some msg →
      msg.Date < now) :
    (saveMessageHandler s args now w).1 = .ok (.saved s.messageIDCounter) ∧
      getLastMessageHandler R (saveMessageHandler s args now w).2 =
        .ok (.message { ID := s.messageIDCounter, Date := now, Content := content,
                        Role := role, Agent := agent }) := by
  have hsave : saveMessageHandler s args now w =
      (.ok (.saved s.messageIDCounter),
        { prevalenceLayer := (s.prevalenceLayer.Set (messageKey s.messageIDCounter)
            (.message { ID := s.messageIDCounter, Date := now, Content := content,
                        Role := role, Agent := agent }) w).1
          messageKeys := s.messageKeys ++ [messageKey s.messageIDCounter]
          messageIDCounter := wrapInt (s.messageIDCounter + 1) }) := by
    simp [saveMessageHandler, hc, hr, ha]
  rw [hsave]
  refine ⟨rfl, ?_⟩
  set new : Message := { ID := s.messageIDCounter, Date := now, Content := content,
                         Role := role, Agent := agent } with hnew
  set s1 : State := { prevalenceLayer := (s.prevalenceLayer.Set (messageKey s.messageIDCounter)
            (.message new) w).1
                      messageKeys := s.messageKeys ++ [messageKey s.messageIDCounter]
                      messageIDCounter := wrapInt (s.messageIDCounter + 1) } with hs1
  have hres : ∀ k, resolvesTo s1.prevalenceLayer k =
      if k = messageKey s.messageIDCounter then some new else resolvesTo s.prevalenceLayer k := by
    intro k
    simp only [hs1, resolvesTo, PrevalenceLayer.Set, PrevalenceLayer.Get]
    split_ifs <;> rfl
  have hmem : new ∈ getAllMessagesSorted R s1 := by
    rw [mem_getAllMessagesSorted]
    simp only [indexedRecords, List.mem_filterMap]
    exact ⟨messageKey s.messageIDCounter, by simp [hs1], by simp [hres]⟩
  have hall : ∀ m ∈ getAllMessagesSorted R s1, m = new ∨ m.Date < now := by
    intro m hm
    rw [mem_getAllMessagesSorted] at hm
    simp only [indexedRecords, List.mem_filterMap] at hm
    obtain ⟨k, hk, hkm⟩ := hm
    rw [hres] at hkm
    split_ifs at hkm with hkey
    · left; exact (Option.some.inj hkm).symm
    · right
      have hk2 : k ∈ s.messageKeys := by
        simp only [hs1, List.mem_append, List.mem_singleton] at hk
        rcases hk with hk | hk
        · exact hk
        · exact absurd hk hkey
      exact hold k hk2 m hkm
  rw [getLastMessageHandler_eq]
  cases hl : (getAllMessagesSorted R s1).getLast? with
  | none =>
    rw [List.getLast?_eq_none_iff] at hl
    rw [hl] at hmem
    simp at hmem
  | some x =>
    have hx : x ∈ getAllMessagesSorted R s1 := List.mem_of_getLast?_eq_some hl
    have hle := le_last_of_sorted (getAllMessagesSorted_sorted R s1) hl new hmem
    rcases hall x hx with h | h
    · simp [h]
    · have : new.Date = now := rfl
      omega

/-- Witness of C3: saving "ping" at instant 200, with a write that reports a failure, into
the store that holds one message of instant 10. -/
theorem save_then_get_last_witness :
    (saveMessageHandler oneSaved (saveArgs "ping" "user" "bot-1") 200 .failed).1 =
        .ok (.saved oneSaved.messageIDCounter) ∧
      getLastMessageHandler refRuntime
        (saveMessageHandler oneSaved (saveArgs "ping" "user" "bot-1") 200 .failed).2 =
        .ok (.message { ID := oneSaved.messageIDCounter, Date := 200, Content := "ping",
                        Role := "user", Agent := "bot-1" }) :=
  save_then_get_last refRuntime oneSaved (saveArgs "ping" "user" "bot-1") 200 .failed
    "ping" "user" "bot-1" (by decide) (by decide) (by decide) (by
      intro key hkey msg hmsg
      have hk : key = "message_1" := by
        have : oneSaved.messageKeys = ["message_1"] := by decide
        rw [this] at hkey
        simpa using hkey
      subst hk
      have h2 : resolvesTo oneSaved.prevalenceLayer "message_1" =
          some { ID := 1, Date := 10, Content := "one", Role := "user", Agent := "A" } := by
        decide
      rw [h2] at hmsg
      rw [← Option.some.inj hmsg]
      decide)

theorem getLastNMessagesHandler_of_parse (R : GoRuntime) (s : State) (args : Arguments)
    (nArg : Arg) (n : Int) (harg : args "n" = some nArg)
    (hparse : getLastNMessagesHandler.parse nArg = .ok n) :
    getLastNMessagesHandler R s args =
      if (getAllMessagesSorted R s).length = 0 then .ok .noMessagesFound
      else
        match sliceFrom (getAllMessagesSorted R s)
          (if getLastNMessagesHandler.start (getAllMessagesSorted R s).length n < 0 then 0
           else getLastNMessagesHandler.start (getAllMessagesSorted R s).length n) with
        | some lastMessages => .ok (.messages lastMessages)
        | none => .sliceBoundsOutOfRange := by
  unfold getLastNMessagesHandler
  cases nArg with
  | null => simp [getLastNMessagesHandler.parse] at hparse
  | _ => simp only [harg, hparse]

/-- C5. On a store whose sorted listing is not empty, with `c` messages, and for an argument
`n` that the handler reads as a non-negative integer (an `int`, a `float64` or a numeric
string), `get_last_n_messages` returns exactly the last `min n c` elements of
`getAllMessagesSorted`, in the same order: all of them when `n ≥ c`. And
`get_last_3_messages` returns what `get_last_n_messages` returns for `n = 3`. -/
theorem getLastNMessagesHandler_last_n (R : GoRuntime) (s : State) (args : Arguments)
    (nArg : Arg) (n : Int) (harg : args "n" = some nArg)
    (hparse : getLastNMessagesHandler.parse nArg = .ok n) (hn : 0 ≤ n)
    (hne : getAllMessagesSorted R s ≠ []) :
    getLastNMessagesHandler R s args =
        .ok (.messages ((getAllMessagesSorted R s).drop
          ((getAllMessagesSorted R s).length -
            min n.toNat (getAllMessagesSorted R s).length))) ∧
      (((getAllMessagesSorted R s).length : Int) ≤ n →
        getLastNMessagesHandler R s args = .ok (.messages (getAllMessagesSorted R s))) ∧
      getLast3MessagesHandler R s = getLastNMessagesHandler R s (oneArg "n" (.int 3)) := by
  have hlen : (getAllMessagesSorted R s).length ≠ 0 := by
    simpa [List.length_eq_zero] using hne
  have hmain : getLastNMessagesHandler R s args =
      .ok (.messages ((getAllMessagesSorted R s).drop
        ((getAllMessagesSorted R s).length -
          min n.toNat (getAllMessagesSorted R s).length))) := by
    rw [getLastNMessagesHandler_of_parse R s args nArg n harg hparse, if_neg hlen]
    generalize getAllMessagesSorted R s = msgs
    have hstart : getLastNMessagesHandler.start msgs.length n = (msgs.length : Int) - n := by
      unfold getLastNMessagesHandler.start
      rw [if_neg (by omega)]
    rw [hstart]
    unfold sliceFrom
    split_ifs with h1 h2 h2
    · have : (0 : Int).toNat = msgs.length - min n.toNat msgs.length := by omega
      simp [this]
    · omega
    · have : ((msgs.length : Int) - n).toNat = msgs.length - min n.toNat msgs.length := by
        omega
      simp [this]
    · omega
  refine ⟨hmain, ?_, ?_⟩
  · intro hall
    rw [hmain]
    have : (getAllMessagesSorted R s).length -
        min n.toNat (getAllMessagesSorted R s).length = 0 := by omega
    simp [this]
  · rw [getLastNMessagesHandler_of_parse R s (oneArg "n" (.int 3)) (.int 3) 3 rfl rfl]
    rfl

/-- Witness of C5: the last 2 of the 3 messages saved at the instants 10, 20 and 30. -/
theorem getLastNMessagesHandler_last_n_witness :
    getLastNMessagesHandler refRuntime threeSaved (oneArg "n" (.str "2")) =
        .ok (.messages ((getAllMessagesSorted refRuntime threeSaved).drop
          ((getAllMessagesSorted refRuntime threeSaved).length -
            min (2 : Int).toNat (getAllMessagesSorted refRuntime threeSaved).length))) ∧
      (((getAllMessagesSorted refRuntime threeSaved).length : Int) ≤ 2 →
        getLastNMessagesHandler refRuntime threeSaved (oneArg "n" (.str "2")) =
          .ok (.messages (getAllMessagesSorted refRuntime threeSaved))) ∧
      getLast3MessagesHandler refRuntime threeSaved =
        getLastNMessagesHandler refRuntime threeSaved (oneArg "n" (.int 3)) :=
  getLastNMessagesHandler_last_n refRuntime threeSaved (oneArg "n" (.str "2")) (.str "2") 2
    (by decide) (by rfl) (by decide) (by decide)

/-- On a store whose listing is not empty, a negative `n` for which `len(messages) - n`
stays in the range of `int` takes the slice expression `messages[start:]` out of bounds,
whatever the sort. -/
theorem getLastNMessagesHandler_of_neg (R : GoRuntime) (s : State) (args : Arguments)
    (nArg : Arg) (n : Int) (harg : args "n" = some nArg)
    (hparse : getLastNMessagesHandler.parse nArg = .ok n) (hn : n < 0)
    (hrange : ((getAllMessagesSorted R s).length : Int) - n < 2 ^ 63)
    (hne : getAllMessagesSorted R s ≠ []) :
    getLastNMessagesHandler R s args = .sliceBoundsOutOfRange := by
  have hlen : (getAllMessagesSorted R s).length ≠ 0 := by
    simpa [List.length_eq_zero] using hne
  rw [getLastNMessagesHandler_of_parse R s args nArg n harg hparse, if_neg hlen]
  have hstart : getLastNMessagesHandler.start (getAllMessagesSorted R s).length n =
      ((getAllMessagesSorted R s).length : Int) - n := by
    unfold getLastNMessagesHandler.start
    rw [if_pos hn, wrapInt_of_range (by omega) hrange]
  rw [hstart, if_neg (by omega)]
  have hslice : sliceFrom (getAllMessagesSorted R s)
      (((getAllMessagesSorted R s).length : Int) - n) = none := by
    unfold sliceFrom
    rw [if_neg]
    omega
  rw [hslice]

/-- For the smallest `int` the difference `len(messages) - n` wraps to a negative value,
`start` is clamped to 0 and all messages are returned. -/
theorem getLastNMessagesHandler_min_int :
    getLastNMessagesHandler refRuntime oneSaved
        (oneArg "n" (.str "-9223372036854775808")) =
      .ok (.messages (getAllMessagesSorted refRuntime oneSaved)) := by
  decide

/-- C6. Evaluation of `get_last_n_messages` on a store that holds one message, for the
argument `-1` given as an `int` and as the string "-1": the handler computes
`start = len(messages) + 1` and the slice expression `messages[start:]` is out of bounds;
no validation error is returned. On the empty store the same arguments give
"No messages found". -/
theorem getLastNMessagesHandler_negative_n :
    getLastNMessagesHandler refRuntime oneSaved (oneArg "n" (.int (-1))) =
        .sliceBoundsOutOfRange ∧
      getLastNMessagesHandler refRuntime oneSaved (oneArg "n" (.str "-1")) =
        .sliceBoundsOutOfRange ∧
      getLastNMessagesHandler refRuntime emptyState (oneArg "n" (.int (-1))) =
        .ok .noMessagesFound := by
  refine ⟨by decide, by decide, by decide⟩

/-! ## Retention -/

theorem resolvesTo_eq_some {p : PrevalenceLayer} {k : String} {m : Message} :
    resolvesTo p k = some m ↔ p.Get k = some (.message m) := by
  unfold resolvesTo
  split <;> simp_all

theorem deleteOlderThan_iter_inv (p : PrevalenceLayer) (cutoffTime : Int)
    (done : List String) (acc : DeleteLoop) (k : String) (m : Message)
    (hk : resolvesTo p k = some m) (h : DeleteLoop.Inv p cutoffTime done acc) :
    DeleteLoop.Inv p cutoffTime (done ++ [k]) (deleteOlderThan.iter cutoffTime acc k) := by
  have hget : p.Get k = some (.message m) := resolvesTo_eq_some.mp hk
  have hold : olderThan p cutoffTime k = decide (m.Date < cutoffTime) := by
    simp [olderThan, hk]
  by_cases hA : k ∈ done ∧ olderThan p cutoffTime k = true
  · -- the key was deleted by an earlier iteration
    have hnone : acc.layer.Get k = none := by rw [h.layer k, if_pos hA]
    have hiter : deleteOlderThan.iter cutoffTime acc k = acc := by
      simp [deleteOlderThan.iter, hnone]
    rw [hiter]
    refine ⟨?_, ?_, ?_⟩
    · intro k1
      rw [h.layer k1]
      by_cases hk1 : k1 = k
      · subst hk1; simp [hA]
      · simp [hk1]
    · rw [h.newKeys]; simp [List.filter_append, hA.2]
    · rw [h.deletedCount]
      have hmem : k ∈ done.filter (olderThan p cutoffTime) := by
        simp [List.mem_filter, hA]
      simp only [List.filter_append, List.filter_cons, hA.2, if_true, List.filter_nil]
      rw [← List.card_toFinset, ← List.card_toFinset]
      congr 2
      ext x
      simp only [List.mem_toFinset, List.mem_append, List.mem_singleton]
      constructor
      · intro hx; exact Or.inl hx
      · rintro (hx | hx)
        · exact hx
        · rw [hx]; exact hmem
  · have hsome : acc.layer.Get k = some (.message m) := by rw [h.layer k, if_neg hA, hget]
    by_cases hdate : m.Date < cutoffTime
    · have holdk : olderThan p cutoffTime k = true := by simp [hold, hdate]
      have hnot : k ∉ done := fun hmem => hA ⟨hmem, holdk⟩
      have hiter : deleteOlderThan.iter cutoffTime acc k =
          { layer := acc.layer.Delete k, newKeys := acc.newKeys,
            deletedCount := acc.deletedCount + 1 } := by
        simp [deleteOlderThan.iter, hsome, hdate]
      rw [hiter]
      refine ⟨?_, ?_, ?_⟩
      · intro k1
        by_cases hk1 : k1 = k
        · subst hk1; simp [PrevalenceLayer.Delete, PrevalenceLayer.Get, holdk]
        · have := h.layer k1
          simp only [PrevalenceLayer.Get] at this
          simp [PrevalenceLayer.Delete, PrevalenceLayer.Get, hk1, this]
      · simp [h.newKeys, List.filter_append, holdk]
      · simp only [h.deletedCount, List.filter_append, List.filter_cons, holdk, if_true,
          List.filter_nil]
        have hnotf : k ∉ done.filter (olderThan p cutoffTime) := fun hmem =>
          hnot (List.mem_filter.mp hmem).1
        rw [← List.card_toFinset, ← List.card_toFinset, List.toFinset_append]
        simp only [List.toFinset_cons, List.toFinset_nil, insert_emptyc_eq]
        rw [Finset.card_union_of_disjoint]
        · simp
        · simp only [Finset.disjoint_singleton_right, List.mem_toFinset]
          exact hnotf
    · have holdk : olderThan p cutoffTime k = false := by simp [hold, hdate]
      have hiter : deleteOlderThan.iter cutoffTime acc k =
          { layer := acc.layer, newKeys := acc.newKeys ++ [k],
            deletedCount := acc.deletedCount } := by
        simp [deleteOlderThan.iter, hsome, hdate]
      rw [hiter]
      refine ⟨?_, ?_, ?_⟩
      · intro k1
        rw [h.layer k1]
        by_cases hk1 : k1 = k
        · subst hk1; simp [holdk]
        · simp [hk1]
      · simp [h.newKeys, List.filter_append, holdk]
      · simp [h.deletedCount, List.filter_append, holdk]

theorem deleteOlderThan_foldl_inv (p : PrevalenceLayer) (cutoffTime : Int)
    (rest : List String) :
    ∀ (done : List String) (acc : DeleteLoop),
      (∀ k ∈ rest, ∃ m, resolvesTo p k = some m) →
      DeleteLoop.Inv p cutoffTime done acc →
      DeleteLoop.Inv p cutoffTime (done ++ rest)
        (rest.foldl (deleteOlderThan.iter cutoffTime) acc) := by
  induction rest with
  | nil => intro done acc _ h; simpa using h
  | cons k rest ih =>
    intro done acc hres h
    obtain ⟨m, hm⟩ := hres k (by simp)
    have h1 := deleteOlderThan_iter_inv p cutoffTime done acc k m hm h
    have h2 := ih (done ++ [k]) _ (fun k1 hk1 => hres k1 (by simp [hk1])) h1
    simpa using h2

theorem deleteOlderThan_inv (s : State) (cutoffTime : Int)
    (hres : ∀ k ∈ s.messageKeys, ∃ m, resolvesTo s.prevalenceLayer k = some m) :
    DeleteLoop.Inv s.prevalenceLayer cutoffTime s.messageKeys
      (s.messageKeys.foldl (deleteOlderThan.iter cutoffTime)
        { layer := s.prevalenceLayer, newKeys := [], deletedCount := 0 }) := by
  have h0 : DeleteLoop.Inv s.prevalenceLayer cutoffTime []
      { layer := s.prevalenceLayer, newKeys := [], deletedCount := 0 } :=
    ⟨fun k => by simp, by simp, by simp⟩
  simpa using deleteOlderThan_foldl_inv s.prevalenceLayer cutoffTime s.messageKeys [] _ hres h0

theorem resolvesTo_congr {p q : PrevalenceLayer} {k : String} (h : p.Get k = q.Get k) :
    resolvesTo p k = resolvesTo q k := by
  unfold resolvesTo
  rw [h]

theorem dedup_length_split (l : List String) (q : String → Bool) :
    l.dedup.length =
      (l.filter q).dedup.length + (l.filter (fun k => !q k)).dedup.length := by
  rw [← List.card_toFinset, ← List.card_toFinset, ← List.card_toFinset,
    List.toFinset_filter, List.toFinset_filter,
    ← Finset.filter_card_add_filter_neg_card_eq_card (fun k => q k = true)]
  congr 2
  ext k
  simp

theorem length_filterMap_of_isSome {α β : Type} (f : α → Option β) (l : List α)
    (h : ∀ a ∈ l, (f a).isSome = true) : (l.filterMap f).length = l.length := by
  induction l with
  | nil => rfl
  | cons a l ih =>
    have ha := h a (by simp)
    obtain ⟨b, hb⟩ := Option.isSome_iff_exists.mp ha
    simp [List.filterMap_cons, hb, ih (fun x hx => h x (by simp [hx]))]

theorem length_getAllMessagesSorted (R : GoRuntime) (s : State)
    (hres : ∀ k ∈ s.messageKeys, ∃ m, resolvesTo s.prevalenceLayer k = some m) :
    (getAllMessagesSorted R s).length = s.messageKeys.length := by
  rw [(getAllMessagesSorted_perm R s).length_eq]
  exact length_filterMap_of_isSome _ _ (fun k hk => by
    obtain ⟨m, hm⟩ := hres k hk
    simp [hm])

theorem storedCount_of_resolving (p : PrevalenceLayer) (keys : List String)
    (hres : ∀ k ∈ keys, ∃ m, resolvesTo p k = some m) :
    storedCount p keys = keys.dedup.length := by
  unfold storedCount
  have : keys.filter (fun k => (resolvesTo p k).isSome) = keys := by
    rw [List.filter_eq_self]
    intro k hk
    obtain ⟨m, hm⟩ := hres k hk
    simp [hm]
  rw [this]

/-- C7. In a state in which every indexed key resolves to a `Message`, `deleteOlderThan`
with cutoff `cutoffTime` (1) deletes from the store exactly the indexed messages whose
timestamp is strictly before the cutoff and leaves every other entry, in particular every
indexed message at or after the cutoff, stored and unchanged; (2) replaces the key index by
the retained keys in their previous relative order; (3) returns the number of records it
deleted; (4) so the number of records stored under indexed keys afterwards is the number
before minus the returned count, and when no key is indexed twice the same holds of the
length of the sorted listing; (5) a second call with the same cutoff returns 0 and changes
nothing. -/
theorem deleteOlderThan_spec (R : GoRuntime) (s : State) (cutoffTime : Int)
    (hkeys : ∀ k ∈ s.messageKeys, (resolvesTo s.prevalenceLayer k).isSome = true) :
    (∀ k, (deleteOlderThan s cutoffTime).2.prevalenceLayer.Get k =
        if k ∈ s.messageKeys ∧ olderThan s.prevalenceLayer cutoffTime k = true then none
        else s.prevalenceLayer.Get k) ∧
      (deleteOlderThan s cutoffTime).2.messageKeys =
        s.messageKeys.filter (fun k => !olderThan s.prevalenceLayer cutoffTime k) ∧
      (deleteOlderThan s cutoffTime).1 =
        ((s.messageKeys.filter (olderThan s.prevalenceLayer cutoffTime)).dedup.length : Int) ∧
      (storedCount (deleteOlderThan s cutoffTime).2.prevalenceLayer
          (deleteOlderThan s cutoffTime).2.messageKeys : Int) =
        storedCount s.prevalenceLayer s.messageKeys - (deleteOlderThan s cutoffTime).1 ∧
      (s.messageKeys.Nodup →
        ((getAllMessagesSorted R (deleteOlderThan s cutoffTime).2).length : Int) =
          (getAllMessagesSorted R s).length - (deleteOlderThan s cutoffTime).1) ∧
      deleteOlderThan (deleteOlderThan s cutoffTime).2 cutoffTime =
        (0, (deleteOlderThan s cutoffTime).2) := by
  have hres : ∀ k ∈ s.messageKeys, ∃ m, resolvesTo s.prevalenceLayer k = some m :=
    fun k hk => Option.isSome_iff_exists.mp (hkeys k hk)
  have inv := deleteOlderThan_inv s cutoffTime hres
  have hlayer : ∀ k, (deleteOlderThan s cutoffTime).2.prevalenceLayer.Get k =
      if k ∈ s.messageKeys ∧ olderThan s.prevalenceLayer cutoffTime k = true then none
      else s.prevalenceLayer.Get k := inv.layer
  have hkeys : (deleteOlderThan s cutoffTime).2.messageKeys =
      s.messageKeys.filter (fun k => !olderThan s.prevalenceLayer cutoffTime k) := inv.newKeys
  have hcount : (deleteOlderThan s cutoffTime).1 =
      ((s.messageKeys.filter (olderThan s.prevalenceLayer cutoffTime)).dedup.length : Int) :=
    inv.deletedCount
  -- the retained keys resolve as before
  have hsame : ∀ k ∈ (deleteOlderThan s cutoffTime).2.messageKeys,
      resolvesTo (deleteOlderThan s cutoffTime).2.prevalenceLayer k =
        resolvesTo s.prevalenceLayer k ∧
      olderThan s.prevalenceLayer cutoffTime k = false ∧ k ∈ s.messageKeys := by
    intro k hk
    rw [hkeys, List.mem_filter] at hk
    have hold : olderThan s.prevalenceLayer cutoffTime k = false := by simpa using hk.2
    refine ⟨resolvesTo_congr ?_, hold, hk.1⟩
    rw [hlayer k]
    simp [hold]
  have hres1 : ∀ k ∈ (deleteOlderThan s cutoffTime).2.messageKeys,
      ∃ m, resolvesTo (deleteOlderThan s cutoffTime).2.prevalenceLayer k = some m := by
    intro k hk
    obtain ⟨h1, _, h3⟩ := hsame k hk
    rw [h1]
    exact hres k h3
  have hold1 : ∀ k ∈ (deleteOlderThan s cutoffTime).2.messageKeys,
      olderThan (deleteOlderThan s cutoffTime).2.prevalenceLayer cutoffTime k = false := by
    intro k hk
    obtain ⟨h1, h2, _⟩ := hsame k hk
    unfold olderThan at h2 ⊢
    rw [h1]
    exact h2
  refine ⟨hlayer, hkeys, hcount, ?_, ?_, ?_⟩
  · rw [storedCount_of_resolving _ _ hres1, storedCount_of_resolving _ _ hres, hkeys, hcount,
      dedup_length_split s.messageKeys (olderThan s.prevalenceLayer cutoffTime)]
    push_cast
    ring
  · intro hnodup
    rw [length_getAllMessagesSorted R _ hres1, length_getAllMessagesSorted R s hres, hkeys,
      hcount, (hnodup.filter _).dedup]
    have := dedup_length_split s.messageKeys (olderThan s.prevalenceLayer cutoffTime)
    rw [hnodup.dedup, (hnodup.filter _).dedup, (hnodup.filter _).dedup] at this
    omega
  · have inv1 := deleteOlderThan_inv (deleteOlderThan s cutoffTime).2 cutoffTime hres1
    have hnil : (deleteOlderThan s cutoffTime).2.messageKeys.filter
        (olderThan (deleteOlderThan s cutoffTime).2.prevalenceLayer cutoffTime) = [] := by
      rw [List.filter_eq_nil_iff]
      intro k hk
      simp [hold1 k hk]
    have hall : (deleteOlderThan s cutoffTime).2.messageKeys.filter
        (fun k => !olderThan (deleteOlderThan s cutoffTime).2.prevalenceLayer cutoffTime k) =
        (deleteOlderThan s cutoffTime).2.messageKeys := by
      rw [List.filter_eq_self]
      intro k hk
      simp [hold1 k hk]
    have hl : ∀ k, (deleteOlderThan (deleteOlderThan s cutoffTime).2
        cutoffTime).2.prevalenceLayer.data k =
        (deleteOlderThan s cutoffTime).2.prevalenceLayer.data k := by
      intro k
      have h1 : (deleteOlderThan (deleteOlderThan s cutoffTime).2
          cutoffTime).2.prevalenceLayer.Get k =
          if k ∈ (deleteOlderThan s cutoffTime).2.messageKeys ∧
            olderThan (deleteOlderThan s cutoffTime).2.prevalenceLayer cutoffTime k = true
          then none else (deleteOlderThan s cutoffTime).2.prevalenceLayer.Get k := inv1.layer k
      simp only [PrevalenceLayer.Get] at h1
      rw [h1]
      split_ifs with hk
      · have := hold1 k hk.1
        rw [this] at hk
        simp at hk
      · rfl
    have e1 : (deleteOlderThan (deleteOlderThan s cutoffTime).2 cutoffTime).1 = 0 := by
      have := inv1.deletedCount
      rw [hnil] at this
      simpa [deleteOlderThan] using this
    have e2 : (deleteOlderThan (deleteOlderThan s cutoffTime).2 cutoffTime).2.messageKeys =
        (deleteOlderThan s cutoffTime).2.messageKeys := by
      have := inv1.newKeys
      rw [hall] at this
      exact this
    have e3 : (deleteOlderThan (deleteOlderThan s cutoffTime).2 cutoffTime).2.prevalenceLayer =
        (deleteOlderThan s cutoffTime).2.prevalenceLayer := by
      cases h1 : (deleteOlderThan (deleteOlderThan s cutoffTime).2 cutoffTime).2.prevalenceLayer
      cases h2 : (deleteOlderThan s cutoffTime).2.prevalenceLayer
      rw [h1, h2] at hl
      congr
      funext k
      exact hl k
    have e4 : (deleteOlderThan (deleteOlderThan s cutoffTime).2 cutoffTime).2.messageIDCounter =
        (deleteOlderThan s cutoffTime).2.messageIDCounter := rfl
    generalize deleteOlderThan (deleteOlderThan s cutoffTime).2 cutoffTime = r2 at e1 e2 e3 e4
    obtain ⟨n2, s2⟩ := r2
    cases s2
    generalize (deleteOlderThan s cutoffTime).2 = s1 at e1 e2 e3 e4
    cases s1
    simp_all

/-- Witness of C7: the store with messages at the instants 10, 20 and 30, cutoff 25. -/
theorem deleteOlderThan_spec_witness :
    (∀ k ∈ threeSaved.messageKeys, (resolvesTo threeSaved.prevalenceLayer k).isSome = true) ∧
      (deleteOlderThan threeSaved 25).1 =
        ((threeSaved.messageKeys.filter
          (olderThan threeSaved.prevalenceLayer 25)).dedup.length : Int) ∧
      deleteOlderThan (deleteOlderThan threeSaved 25).2 25 =
        (0, (deleteOlderThan threeSaved 25).2) :=
  ⟨by decide,
    (deleteOlderThan_spec refRuntime threeSaved 25 (by decide)).2.2.1,
    (deleteOlderThan_spec refRuntime threeSaved 25 (by decide)).2.2.2.2.2⟩

/-! ## Delete-all -/

theorem deleteAll_foldl (keys : List String) :
    ∀ (p : PrevalenceLayer) (n : Int),
      (keys.foldl (fun (acc : PrevalenceLayer × Int) key => (acc.1.Delete key, acc.2 + 1))
          (p, n)).2 = n + keys.length ∧
      ∀ k, (keys.foldl (fun (acc : PrevalenceLayer × Int) key => (acc.1.Delete key, acc.2 + 1))
          (p, n)).1.Get k = if k ∈ keys then none else p.Get k := by
  induction keys with
  | nil => intro p n; simp
  | cons key keys ih =>
    intro p n
    obtain ⟨h1, h2⟩ := ih (p.Delete key) (n + 1)
    refine ⟨?_, ?_⟩
    · simp only [List.foldl_cons, h1, List.length_cons]
      push_cast
      ring
    · intro k
      simp only [List.foldl_cons, h2 k, List.mem_cons]
      by_cases hk : k = key
      · subst hk
        by_cases hmem : k ∈ keys <;> simp [hmem, PrevalenceLayer.Delete, PrevalenceLayer.Get]
      · by_cases hmem : k ∈ keys <;> simp [hmem, hk, PrevalenceLayer.Delete, PrevalenceLayer.Get]

theorem getAllMessagesSorted_of_keys_nil (R : GoRuntime) (s : State)
    (h : s.messageKeys = []) : getAllMessagesSorted R s = [] := by
  have hp := getAllMessagesSorted_perm R s
  rw [h] at hp
  simpa [indexedRecords] using hp

/-- C8. From every state, `delete_all_messages` deletes every indexed key from the store
(and touches no other key), leaves the key index empty and reports the number of keys that
were indexed. Afterwards `get_last_message` reports "No messages found", `search_messages`
reports no match for any keywords, and a second `delete_all_messages` reports 0. -/
theorem deleteAllMessagesHandler_spec (R : GoRuntime) (s : State) :
    (deleteAllMessagesHandler s).1 = .ok (.deletedAll s.messageKeys.length) ∧
      (∀ k, (deleteAllMessagesHandler s).2.prevalenceLayer.Get k =
        if k ∈ s.messageKeys then none else s.prevalenceLayer.Get k) ∧
      (deleteAllMessagesHandler s).2.messageKeys = [] ∧
      getLastMessageHandler R (deleteAllMessagesHandler s).2 = .ok .noMessagesFound ∧
      (∀ keywords : String,
        searchMessagesHandler R (deleteAllMessagesHandler s).2
          (oneArg "keywords" (.str keywords)) = .ok .noMatch) ∧
      (deleteAllMessagesHandler (deleteAllMessagesHandler s).2).1 = .ok (.deletedAll 0) := by
  obtain ⟨h1, h2⟩ := deleteAll_foldl s.messageKeys s.prevalenceLayer 0
  have hnil : getAllMessagesSorted R (deleteAllMessagesHandler s).2 = [] :=
    getAllMessagesSorted_of_keys_nil R _ rfl
  refine ⟨?_, h2, rfl, ?_, ?_, rfl⟩
  · simp only [deleteAllMessagesHandler, h1]
    simp
  · rw [getLastMessageHandler_eq, hnil]
    rfl
  · intro keywords
    have harg : oneArg "keywords" (.str keywords) "keywords" = some (.str keywords) := by
      simp [oneArg]
    simp only [searchMessagesHandler, harg, hnil]
    rfl

/-! ## Search -/

theorem containsKeywords_loop_iff (contentLower : String) (keywordList : List String) :
    containsKeywords.loop contentLower keywordList = true ↔
      ∃ keyword ∈ keywordList, Contains contentLower keyword = true := by
  induction keywordList with
  | nil => simp [containsKeywords.loop]
  | cons keyword rest ih =>
    unfold containsKeywords.loop
    by_cases h : Contains contentLower keyword = true
    · simp [h]
    · simp [h, ih]

theorem search_foldl (q : Message → Bool) (messages : List Message) :
    ∀ acc : List Message,
      messages.foldl (fun matchingMessages message =>
        if q message = true then matchingMessages ++ [message] else matchingMessages) acc =
        acc ++ messages.filter q := by
  induction messages with
  | nil => intro acc; simp
  | cons m ms ih =>
    intro acc
    simp only [List.foldl_cons, ih, List.filter_cons]
    by_cases h : q m = true <;> simp [h]

theorem Fields_scan_tokens (cs : List Char) :
    ∀ (cur : List Char), (∀ c ∈ cur, isSpace c = false) →
      ∀ tok ∈ Fields.scan cs cur, tok.data ≠ [] ∧ ∀ c ∈ tok.data, isSpace c = false := by
  induction cs with
  | nil =>
    intro cur hcur tok htok
    unfold Fields.scan at htok
    split_ifs at htok with h
    · simp at htok
    · simp only [List.mem_singleton] at htok
      subst htok
      exact ⟨by simpa using h, fun c hc => hcur c (by simpa using hc)⟩
  | cons c cs ih =>
    intro cur hcur tok htok
    unfold Fields.scan at htok
    split_ifs at htok with hsp h
    · exact ih [] (by simp) tok htok
    · rw [List.mem_cons] at htok
      rcases htok with htok | htok
      · subst htok
        exact ⟨by simpa using h, fun c hc => hcur c (by simpa using hc)⟩
      · exact ih [] (by simp) tok htok
    · refine ih (c :: cur) ?_ tok htok
      intro c1 hc1
      rw [List.mem_cons] at hc1
      rcases hc1 with hc1 | hc1
      · rw [hc1]; simpa using hsp
      · exact hcur c1 hc1

/-- The keywords "hello world" match a content that holds "Hello" without "world", and one
that holds "WORLD" without "hello", and do not match a content that holds neither. -/
theorem containsKeywords_examples :
    containsKeywords refRuntime "Hello there" "hello world" = true ∧
      containsKeywords refRuntime "brave new WORLD" "hello world" = true ∧
      containsKeywords refRuntime "nothing here" "hello world" = false := by
  refine ⟨by decide, by decide, by decide⟩

/-- C9. `containsKeywords content keywords` is true exactly when at least one of the tokens
`strings.Fields` cuts out of the lower-cased keywords (each a non-empty run of characters
that are not white space) occurs as a substring of the lower-cased content; with no token
there is no match. And `search_messages` returns exactly the elements of
`getAllMessagesSorted` whose content satisfies `containsKeywords`, in the same order, the
case of no match being a normal text result. -/
theorem containsKeywords_spec (R : GoRuntime) (content keywords : String) (s : State) :
    (containsKeywords R content keywords = true ↔
        ∃ tok ∈ Fields (R.toLower keywords), tok.data <:+: (R.toLower content).data) ∧
      (∀ tok ∈ Fields (R.toLower keywords),
        tok.data ≠ [] ∧ ∀ c ∈ tok.data, isSpace c = false) ∧
      (Fields (R.toLower keywords) = [] → containsKeywords R content keywords = false) ∧
      searchMessagesHandler R s (oneArg "keywords" (.str keywords)) =
        (if (getAllMessagesSorted R s).filter
            (fun m => containsKeywords R m.Content keywords) = []
         then .ok .noMatch
         else .ok (.messages ((getAllMessagesSorted R s).filter
            (fun m => containsKeywords R m.Content keywords)))) := by
  refine ⟨?_, ?_, ?_, ?_⟩
  · unfold containsKeywords
    simp only [containsKeywords_loop_iff, Contains, decide_eq_true_eq]
  · intro tok htok
    exact Fields_scan_tokens _ [] (by simp) tok htok
  · intro h
    unfold containsKeywords
    simp only [h, containsKeywords.loop]
  · have harg : oneArg "keywords" (.str keywords) "keywords" = some (.str keywords) := by
      simp [oneArg]
    simp only [searchMessagesHandler, harg]
    rw [search_foldl (fun m => containsKeywords R m.Content keywords)]
    simp only [List.nil_append, List.length_eq_zero]

/-! ## Save and the outcome of the write -/

/-- C10, counterexample. A `save_message` on the empty store whose write fails: the write
reports its failure, yet the handler reports success with id 1 and appends the key
`message_1` to the key index, which is thereby changed. -/
theorem saveMessageHandler_failed_write_counterexample :
    (emptyState.prevalenceLayer.Set (messageKey 1)
        (.message { ID := 1, Date := 10, Content := "ping", Role := "user", Agent := "bot-1" })
        .failed).2 = true ∧
      (saveMessageHandler emptyState (saveArgs "ping" "user" "bot-1") 10 .failed).1 =
        .ok (.saved 1) ∧
      (saveMessageHandler emptyState (saveArgs "ping" "user" "bot-1") 10 .failed).2.messageKeys =
        ["message_1"] ∧
      (saveMessageHandler emptyState (saveArgs "ping" "user" "bot-1") 10 .failed).2.messageKeys ≠
        emptyState.messageKeys := by
  refine ⟨rfl, by decide, by decide, by decide⟩

/-- C10, amended. `save_message` does not look at the outcome of the write: for every call
with a string `content`, whether the write is stored or fails, the handler reports success
with the id of the counter, appends the key `message_<id>` to the key index and advances
the counter by one in `int` arithmetic. -/
theorem saveMessageHandler_ignores_write_outcome (s : State) (args : Arguments) (now : Int)
    (w : WriteOutcome) (content : String) (hc : args "content" = some (.str content)) :
    (saveMessageHandler s args now w).1 = .ok (.saved s.messageIDCounter) ∧
      (saveMessageHandler s args now w).2.messageKeys =
        s.messageKeys ++ [messageKey s.messageIDCounter] ∧
      (saveMessageHandler s args now w).2.messageIDCounter =
        wrapInt (s.messageIDCounter + 1) := by
  refine ⟨?_, ?_, ?_⟩
  · simp [saveMessageHandler, hc]
  · simp [saveMessageHandler, hc]
  · simp [saveMessageHandler, hc]

/-- Witness of the amended C10: a failed write on the store that holds one message. -/
theorem saveMessageHandler_ignores_write_outcome_witness :
    (saveMessageHandler oneSaved (saveArgs "ping" "user" "bot-1") 20 .failed).1 =
        .ok (.saved oneSaved.messageIDCounter) ∧
      (saveMessageHandler oneSaved (saveArgs "ping" "user" "bot-1") 20 .failed).2.messageKeys =
        oneSaved.messageKeys ++ [messageKey oneSaved.messageIDCounter] ∧
      (saveMessageHandler oneSaved (saveArgs "ping" "user" "bot-1") 20
        .failed).2.messageIDCounter = wrapInt (oneSaved.messageIDCounter + 1) :=
  saveMessageHandler_ignores_write_outcome oneSaved (saveArgs "ping" "user" "bot-1") 20
    .failed "ping" (by decide)

/-! ## Keys determine ids -/

theorem digitChar_toNat (k : Nat) (hk : k < 10) : (Nat.digitChar k).toNat - 48 = k := by
  interval_cases k <;> rfl

theorem digitChar_ne_minus (k : Nat) (hk : k < 10) : Nat.digitChar k ≠ '-' := by
  interval_cases k <;> decide

theorem decode_toDigitsCore (fuel : Nat) :
    ∀ (n : Nat) (ds : List Char), n < fuel →
      (Nat.toDigitsCore 10 fuel n ds).foldl (fun n ch => n * 10 + (ch.toNat - 48)) 0 =
        ds.foldl (fun n ch => n * 10 + (ch.toNat - 48)) n := by
  induction fuel with
  | zero => intro n ds h; omega
  | succ fuel ih =>
    intro n ds h
    have hd : (Nat.digitChar (n % 10)).toNat - 48 = n % 10 :=
      digitChar_toNat _ (Nat.mod_lt _ (by decide))
    simp only [Nat.toDigitsCore]
    split_ifs with h0
    · simp only [List.foldl_cons, hd]
      congr 1
      omega
    · rw [ih (n / 10) _ (by omega)]
      simp only [List.foldl_cons, hd]
      congr 1
      omega

theorem decodeDigits_toDigits (n : Nat) : decodeDigits (Nat.toDigits 10 n) = n := by
  unfold decodeDigits Nat.toDigits
  rw [decode_toDigitsCore (n + 1) n [] (by omega)]
  rfl

theorem toDigitsCore_head (fuel : Nat) :
    ∀ (n : Nat) (ds : List Char),
      (∃ k, k < 10 ∧ ∃ rest, ds = Nat.digitChar k :: rest) ∨ 0 < fuel →
      ∃ k, k < 10 ∧ ∃ rest, Nat.toDigitsCore 10 fuel n ds = Nat.digitChar k :: rest := by
  induction fuel with
  | zero =>
    intro n ds h
    rcases h with h | h
    · simpa [Nat.toDigitsCore] using h
    · omega
  | succ fuel ih =>
    intro n ds _
    simp only [Nat.toDigitsCore]
    split_ifs with h0
    · exact ⟨n % 10, Nat.mod_lt _ (by decide), ds, rfl⟩
    · exact ih (n / 10) _ (Or.inl ⟨n % 10, Nat.mod_lt _ (by decide), ds, rfl⟩)

theorem decodeInt_toString (id : Int) : decodeInt (toString id).data = id := by
  cases id with
  | ofNat m =>
    obtain ⟨k, hk, rest, hrest⟩ := toDigitsCore_head (m + 1) m [] (Or.inr (by omega))
    have hdata : (toString (Int.ofNat m)).data = Nat.toDigits 10 m := rfl
    have hdec := decodeDigits_toDigits m
    rw [hdata]
    unfold Nat.toDigits at hdec ⊢
    rw [hrest] at hdec ⊢
    simp only [decodeInt, digitChar_ne_minus k hk, if_false, hdec]
    rfl
  | negSucc m =>
    have hdata : (toString (Int.negSucc m)).data = '-' :: Nat.toDigits 10 (m + 1) := rfl
    rw [hdata]
    simp only [decodeInt, if_true, decodeDigits_toDigits]
    rfl

theorem keyId_messageKey (id : Int) : keyId (messageKey id) = id := by
  have hdata : (messageKey id).data = "message_".data ++ (toString id).data := by
    simp [messageKey]
  unfold keyId
  rw [hdata]
  have : ("message_".data ++ (toString id).data).drop 8 = (toString id).data := by
    have h8 : "message_".data.length = 8 := by decide
    rw [List.drop_append_of_le_length (by omega)]
    simp [List.drop_eq_nil_of_le, h8]
  rw [this]
  exact decodeInt_toString id

theorem messageKey_injective {a b : Int} (h : messageKey a = messageKey b) : a = b := by
  have := congrArg keyId h
  simpa [keyId_messageKey] using this

/-! ## The key-index invariant -/

theorem KeyIndexInv_resolves {c0 : Int} {k : Nat} {s : State} (h : KeyIndexInv c0 k s) :
    ∀ key ∈ s.messageKeys, ∃ m, resolvesTo s.prevalenceLayer key = some m := by
  intro key hkey
  obtain ⟨_, _, _, m, hget, _⟩ := h.2.2 key hkey
  exact ⟨m, resolvesTo_eq_some.mpr hget⟩

theorem deleteOlderThan_messageKeys {c0 : Int} {k : Nat} (s : State) (cutoffTime : Int)
    (h : KeyIndexInv c0 k s) :
    (deleteOlderThan s cutoffTime).2.messageKeys =
        s.messageKeys.filter (fun key => !olderThan s.prevalenceLayer cutoffTime key) ∧
      ∀ key, (deleteOlderThan s cutoffTime).2.prevalenceLayer.Get key =
        if key ∈ s.messageKeys ∧ olderThan s.prevalenceLayer cutoffTime key = true then none
        else s.prevalenceLayer.Get key :=
  have inv := deleteOlderThan_inv s cutoffTime (KeyIndexInv_resolves h)
  ⟨inv.newKeys, inv.layer⟩

theorem saveCount_cons (m : Mutation) (ms : List Mutation) :
    saveCount (m :: ms) = saveCount [m] + saveCount ms := by
  cases m <;> simp [saveCount]
  omega

theorem saveCount_append (ms1 ms2 : List Mutation) :
    saveCount (ms1 ++ ms2) = saveCount ms1 + saveCount ms2 := by
  induction ms1 with
  | nil => simp [saveCount]
  | cons m ms ih =>
    rw [List.cons_append, saveCount_cons, ih, saveCount_cons m ms]
    omega

/-- One mutation keeps the invariant, as long as fewer than `2^64` saves came before a
save. The keys indexed after it were indexed before or belong to the save just made. -/
theorem KeyIndexInv_applyMutation (c0 : Int) (k : Nat) (s : State) (m : Mutation)
    (h : KeyIndexInv c0 k s) (hk : k + saveCount [m] ≤ 2 ^ 64) :
    ∃ k1 : Nat, k ≤ k1 ∧ k1 ≤ k + saveCount [m] ∧ KeyIndexInv c0 k1 (applyMutation s m) ∧
      ∀ key ∈ (applyMutation s m).messageKeys,
        key ∈ s.messageKeys ∨
          ∃ i : Nat, k ≤ i ∧ i < k1 ∧ key = messageKey (wrapInt (c0 + i)) := by
  obtain ⟨hcounter, hnodup, hkeys⟩ := h
  cases m with
  | save_message args now w =>
    have hk1 : k < 2 ^ 64 := by
      simp only [saveCount] at hk
      omega
    simp only [applyMutation]
    rcases saveMessageHandler_cases s args now w with ⟨_, hs⟩ | ⟨msg, hid, hs⟩
    · rw [hs]
      exact ⟨k, le_refl _, by omega, ⟨hcounter, hnodup, hkeys⟩, fun key hkey => Or.inl hkey⟩
    · rw [hs]
      have hfresh : messageKey s.messageIDCounter ∉ s.messageKeys := by
        intro hmem
        obtain ⟨i, hi, hkey, _⟩ := hkeys _ hmem
        have h1 := messageKey_injective hkey
        rw [hcounter] at h1
        have := wrapInt_add_inj h1 hk1 (by omega)
        omega
      refine ⟨k + 1, by omega, by simp [saveCount], ⟨?_, ?_, ?_⟩, ?_⟩
      · simp only
        rw [hcounter, wrapInt_wrapInt_add]
        congr 1
        push_cast
        ring
      · simp only
        rw [List.nodup_append]
        refine ⟨hnodup, by simp, ?_⟩
        intro key hkey hkey1
        rw [List.mem_singleton] at hkey1
        exact hfresh (hkey1 ▸ hkey)
      · intro key hkey
        simp only [List.mem_append, List.mem_singleton] at hkey
        rcases hkey with hkey | hkey
        · obtain ⟨i, hi, hki, m, hget, hm⟩ := hkeys key hkey
          have hne : key ≠ messageKey s.messageIDCounter := fun he => hfresh (he ▸ hkey)
          refine ⟨i, by omega, hki, m, ?_, hm⟩
          simp only [PrevalenceLayer.Set, PrevalenceLayer.Get, hne, if_false]
          exact hget
        · refine ⟨k, by omega, by rw [hkey, hcounter], msg, ?_, by rw [hid, hcounter]⟩
          simp [PrevalenceLayer.Set, PrevalenceLayer.Get, hkey]
      · intro key hkey
        simp only [List.mem_append, List.mem_singleton] at hkey
        rcases hkey with hkey | hkey
        · exact Or.inl hkey
        · exact Or.inr ⟨k, le_refl _, by omega, by rw [hkey, hcounter]⟩
  | deleteOlderThan cutoffTime =>
    obtain ⟨hnew, hlayer⟩ :=
      deleteOlderThan_messageKeys s cutoffTime (⟨hcounter, hnodup, hkeys⟩ : KeyIndexInv c0 k s)
    simp only [applyMutation]
    refine ⟨k, le_refl _, by omega, ⟨hcounter, ?_, ?_⟩, ?_⟩
    · rw [hnew]; exact hnodup.filter _
    · intro key hkey
      rw [hnew, List.mem_filter] at hkey
      obtain ⟨i, hi, hki, m, hget, hm⟩ := hkeys key hkey.1
      refine ⟨i, hi, hki, m, ?_, hm⟩
      rw [hlayer key]
      have hold : olderThan s.prevalenceLayer cutoffTime key = false := by simpa using hkey.2
      simp [hold, hget]
    · intro key hkey
      rw [hnew, List.mem_filter] at hkey
      exact Or.inl hkey.1
  | delete_all_messages =>
    simp only [applyMutation]
    refine ⟨k, le_refl _, by omega, ⟨hcounter, List.nodup_nil, ?_⟩, ?_⟩
    · intro key hkey
      simp [deleteAllMessagesHandler] at hkey
    · intro key hkey
      simp [deleteAllMessagesHandler] at hkey

theorem KeyIndexInv_applyAll (c0 : Int) (ms : List Mutation) :
    ∀ (k : Nat) (s : State), KeyIndexInv c0 k s → k + saveCount ms ≤ 2 ^ 64 →
      ∃ k1 : Nat, k ≤ k1 ∧ k1 ≤ k + saveCount ms ∧ KeyIndexInv c0 k1 (applyAll s ms) ∧
        ∀ key ∈ (applyAll s ms).messageKeys,
          key ∈ s.messageKeys ∨
            ∃ i : Nat, k ≤ i ∧ i < k1 ∧ key = messageKey (wrapInt (c0 + i)) := by
  induction ms with
  | nil =>
    intro k s h _
    exact ⟨k, le_refl _, by simp [saveCount], h, fun key hkey => Or.inl hkey⟩
  | cons m ms ih =>
    intro k s h hk
    rw [saveCount_cons] at hk ⊢
    obtain ⟨k1, h1, h2, inv1, hkeys1⟩ := KeyIndexInv_applyMutation c0 k s m h (by omega)
    obtain ⟨k2, h3, h4, inv2, hkeys2⟩ := ih k1 (applyMutation s m) inv1 (by omega)
    refine ⟨k2, by omega, by omega, inv2, ?_⟩
    intro key hkey
    rcases hkeys2 key hkey with hmem | ⟨i, hi1, hi2, hki⟩
    · rcases hkeys1 key hmem with hmem1 | ⟨i, hi1, hi2, hki⟩
      · exact Or.inl hmem1
      · exact Or.inr ⟨i, hi1, by omega, hki⟩
    · exact Or.inr ⟨i, by omega, hi2, hki⟩

theorem KeyIndexInv_emptyIndex (p : PrevalenceLayer) (counter : Int)
    (hmin : -2 ^ 63 ≤ counter) (hmax : counter < 2 ^ 63) :
    KeyIndexInv counter 0 (emptyIndex p counter) := by
  refine ⟨?_, List.nodup_nil, fun key hkey => by simp [emptyIndex] at hkey⟩
  have := wrapInt_of_range hmin hmax
  simpa [emptyIndex] using this.symm

theorem applyAll_append (s : State) (ms1 ms2 : List Mutation) :
    applyAll s (ms1 ++ ms2) = applyAll (applyAll s ms1) ms2 := by
  simp [applyAll, List.foldl_append]

/-- The keys indexed after `n` saves with a string content from a counter that is an `int`:
the keys before, then the keys of the `n` following ids in wrapping arithmetic. -/
theorem manySaves_messageKeys (n : Nat) :
    ∀ s : State, -2 ^ 63 ≤ s.messageIDCounter → s.messageIDCounter < 2 ^ 63 →
      (applyAll s (manySaves n)).messageKeys =
        s.messageKeys ++
          (List.range n).map (fun i : Nat => messageKey (wrapInt (s.messageIDCounter + i))) := by
  induction n with
  | zero => intro s _ _; simp [manySaves, applyAll]
  | succ n ih =>
    intro s h1 h2
    have hstep : applyAll s (manySaves (n + 1)) =
        applyAll (applyMutation s (.save_message (saveArgs "one" "user" "A") 10 .stored))
          (manySaves n) := by
      simp [manySaves, applyAll, List.replicate_succ]
    have hsave : applyMutation s (.save_message (saveArgs "one" "user" "A") 10 .stored) =
        { prevalenceLayer :=
            (s.prevalenceLayer.Set (messageKey s.messageIDCounter)
              (.message { ID := s.messageIDCounter, Date := 10, Content := "one",
                          Role := "user", Agent := "A" }) .stored).1
          messageKeys := s.messageKeys ++ [messageKey s.messageIDCounter]
          messageIDCounter := wrapInt (s.messageIDCounter + 1) } := by
      simp [applyMutation, saveMessageHandler, saveArgs]
    have hr := wrapInt_range (s.messageIDCounter + 1)
    rw [hstep, ih _ (by rw [hsave]; exact hr.1) (by rw [hsave]; exact hr.2), hsave,
      List.range_succ_eq_map]
    simp only [List.map_cons, List.map_map, List.append_assoc, List.singleton_append]
    congr 2
    · have := wrapInt_of_range h1 h2
      simp [this]
    · apply List.map_congr_left
      intro i _
      simp only [Function.comp, wrapInt_wrapInt_add]
      congr 2
      push_cast
      ring

/-- When the counter comes back to its first value after `N` saves, the key of that value is
indexed a second time by the save that follows. -/
theorem manySaves_duplicate (p : PrevalenceLayer) (c : Int) (N : Nat)
    (hmin : -2 ^ 63 ≤ c) (hmax : c < 2 ^ 63) (hN : 0 < N)
    (hwrap : wrapInt (c + (N : Int)) = c) :
    1 < (applyAll (emptyIndex p c) (manySaves (N + 1))).messageKeys.count (messageKey c) := by
  have hkeys := manySaves_messageKeys (N + 1) (emptyIndex p c) hmin hmax
  have hc : (emptyIndex p c).messageIDCounter = c := rfl
  have hnil : (emptyIndex p c).messageKeys = [] := rfl
  rw [hc, hnil, List.nil_append, List.range_succ_eq_map, List.map_cons, List.map_map] at hkeys
  rw [hkeys]
  have h0 : messageKey (wrapInt (c + ((0 : Nat) : Int))) = messageKey c := by
    congr 1
    rw [Nat.cast_zero, add_zero]
    exact wrapInt_of_range hmin hmax
  rw [h0, List.count_cons_self]
  have hmem : messageKey c ∈ (List.range N).map
      ((fun i : Nat => messageKey (wrapInt (c + (i : Int)))) ∘ Nat.succ) := by
    rw [List.mem_map]
    obtain ⟨n, rfl⟩ : ∃ n, N = n + 1 := ⟨N - 1, by omega⟩
    refine ⟨n, List.mem_range.mpr (by omega), ?_⟩
    simp only [Function.comp]
    rw [hwrap]
  have := List.count_pos_iff.mpr hmem
  omega

/-- C11, counterexample. Starting from the empty index with the counter 0, after
`2^64 + 1` `save_message` operations the counter has come round to 0 again and the key
`message_0` occurs in the index more than once. -/
theorem key_index_wrap_counterexample :
    1 < (applyAll (emptyIndex ⟨fun _ => none⟩ 0) (manySaves (2 ^ 64 + 1))).messageKeys.count
      (messageKey 0) :=
  manySaves_duplicate ⟨fun _ => none⟩ 0 (2 ^ 64) (by norm_num) (by norm_num) (by norm_num)
    (by norm_num [wrapInt])

/-- C11, amended. Key-index invariant. Starting from an empty key index, over any store and
with a counter that is an `int`, after every finite sequence of `save_message` (whatever
its write reports), `deleteOlderThan` and `delete_all_messages` operations that holds at
most `2^64` `save_message` operations: every key of the index occurs in it exactly once, is
of the form `message_<id>`, and resolves in the store to a `Message` whose id is that id;
and a key that was indexed before one of the operations and whose record that operation
deleted is in the index neither right after it nor after any further operations. -/
theorem key_index_invariant (p : PrevalenceLayer) (counter : Int)
    (hmin : -2 ^ 63 ≤ counter) (hmax : counter < 2 ^ 63) :
    (∀ (ms : List Mutation), saveCount ms ≤ 2 ^ 64 →
      ∀ key ∈ (applyAll (emptyIndex p counter) ms).messageKeys,
        (applyAll (emptyIndex p counter) ms).messageKeys.count key = 1 ∧
        ∃ id : Int, key = messageKey id ∧
          ∃ msg, (applyAll (emptyIndex p counter) ms).prevalenceLayer.Get key =
            some (.message msg) ∧ msg.ID = id) ∧
      (∀ (before : List Mutation) (m : Mutation) (after : List Mutation) (key : String),
        saveCount (before ++ m :: after) ≤ 2 ^ 64 →
        key ∈ (applyAll (emptyIndex p counter) before).messageKeys →
        (applyMutation (applyAll (emptyIndex p counter) before) m).prevalenceLayer.Get key =
          none →
        key ∉ (applyAll (emptyIndex p counter) (before ++ m :: after)).messageKeys) := by
  have inv0 := KeyIndexInv_emptyIndex p counter hmin hmax
  constructor
  · intro ms hms key hkey
    obtain ⟨k1, _, _, inv, _⟩ := KeyIndexInv_applyAll counter ms 0 _ inv0 (by omega)
    obtain ⟨i, _, hki, msg, hget, hmsg⟩ := inv.2.2 key hkey
    exact ⟨List.count_eq_one_of_mem inv.2.1 hkey, _, hki, msg, hget, hmsg⟩
  · intro before m after key hcount hkey hgone hmem
    rw [saveCount_append, saveCount_cons] at hcount
    obtain ⟨k1, _, hk1, inv1, _⟩ := KeyIndexInv_applyAll counter before 0 _ inv0 (by omega)
    obtain ⟨k2, hk12, hk2, inv2, _⟩ :=
      KeyIndexInv_applyMutation counter k1 _ m inv1 (by omega)
    obtain ⟨k3, _, hk3, _, hkeys3⟩ :=
      KeyIndexInv_applyAll counter after k2 _ inv2 (by omega)
    obtain ⟨i0, hi0, hki0, _⟩ := inv1.2.2 key hkey
    have hsplit : applyAll (emptyIndex p counter) (before ++ m :: after) =
        applyAll (applyMutation (applyAll (emptyIndex p counter) before) m) after := by
      rw [applyAll_append]
      rfl
    rw [hsplit] at hmem
    rcases hkeys3 key hmem with hk | ⟨i, hi1, hi2, hki⟩
    · obtain ⟨_, _, _, msg, hget, _⟩ := inv2.2.2 key hk
      rw [hgone] at hget
      exact Option.noConfusion hget
    · have h1 := messageKey_injective (hki0.symm.trans hki)
      have := wrapInt_add_inj h1 (by omega) (by omega)
      omega

/-- Witness of the amended C11: two saves at the instants 10 and 20, the second with a
write that reports a failure, a `deleteOlderThan` with cutoff 15 that deletes the record of
`message_1`, then a third save. -/
theorem key_index_invariant_witness :
    ("message_1" ∈ (applyAll (emptyIndex ⟨fun _ => none⟩ 1) twoSaves).messageKeys ∧
      (applyMutation (applyAll (emptyIndex ⟨fun _ => none⟩ 1) twoSaves)
        (.deleteOlderThan 15)).prevalenceLayer.Get "message_1" = none ∧
      "message_1" ∉ (applyAll (emptyIndex ⟨fun _ => none⟩ 1)
        (twoSaves ++ .deleteOlderThan 15 ::
          [.save_message (saveArgs "three" "user" "A") 30 .stored])).messageKeys) ∧
      ((applyAll (emptyIndex ⟨fun _ => none⟩ 1) twoSaves).messageKeys.count "message_2" = 1 ∧
        ∃ id : Int, "message_2" = messageKey id ∧
          ∃ msg, (applyAll (emptyIndex ⟨fun _ => none⟩ 1) twoSaves).prevalenceLayer.Get
            "message_2" = some (.message msg) ∧ msg.ID = id) :=
  ⟨⟨by decide, by decide,
    (key_index_invariant ⟨fun _ => none⟩ 1 (by decide) (by decide)).2 twoSaves
      (.deleteOlderThan 15) [.save_message (saveArgs "three" "user" "A") 30 .stored]
      "message_1" (by decide) (by decide) (by decide)⟩,
    (key_index_invariant ⟨fun _ => none⟩ 1 (by decide) (by decide)).1 twoSaves (by decide)
      "message_2" (by decide)⟩

/-! ## Defaults of `save_message` -/

/-- C12. For a `save_message` call with a string `content`, the message stored under the
new key has that content; its role is the `role` argument when that is a string and
"assistant" when it is absent (missing, null or not a string), so the role is "assistant"
exactly when the argument is absent or is the string "assistant"; its agent is the `agent`
argument when that is a string and "unknown" when it is absent. A call whose `content` is
missing, null or not a string returns an error and leaves the state (counter, key index and
store) unchanged. -/
theorem saveMessageHandler_defaults (s : State) (args : Arguments) (now : Int) :
    (∀ content, args "content" = some (.str content) →
      ∃ msg : Message,
        (saveMessageHandler s args now .stored).2.prevalenceLayer.Get
            (messageKey s.messageIDCounter) = some (.message msg) ∧
          msg.Content = content ∧
          (∀ r, args "role" = some (.str r) → msg.Role = r) ∧
          ((∀ r, args "role" ≠ some (.str r)) → msg.Role = "assistant") ∧
          (msg.Role = "assistant" ↔
            (∀ r, args "role" ≠ some (.str r)) ∨ args "role" = some (.str "assistant")) ∧
          (∀ a, args "agent" = some (.str a) → msg.Agent = a) ∧
          ((∀ a, args "agent" ≠ some (.str a)) → msg.Agent = "unknown")) ∧
      ((∀ content, args "content" ≠ some (.str content)) →
        ∀ w, (∃ e, (saveMessageHandler s args now w).1 = .err e) ∧
          (saveMessageHandler s args now w).2 = s) := by
  constructor
  · intro content hc
    refine ⟨{ ID := s.messageIDCounter, Date := now, Content := content,
              Role := match args "role" with
                | some (.str r) => r
                | _ => "assistant",
              Agent := match args "agent" with
                | some (.str a) => a
                | _ => "unknown" }, ?_, rfl, ?_, ?_, ?_, ?_, ?_⟩
    · simp [saveMessageHandler, hc, PrevalenceLayer.Set, PrevalenceLayer.Get]
    · intro r hr; simp [hr]
    · intro hr
      show (match args "role" with
        | some (.str r) => r
        | _ => "assistant") = "assistant"
      split
      · rename_i r hr1; exact absurd hr1 (hr r)
      · rfl
    · constructor
      · intro h
        by_cases hex : ∃ r, args "role" = some (.str r)
        · obtain ⟨r, hr⟩ := hex
          right
          simp only [hr] at h
          rw [hr, h]
        · left
          intro r hr
          exact hex ⟨r, hr⟩
      · rintro (h | h)
        · show (match args "role" with
            | some (.str r) => r
            | _ => "assistant") = "assistant"
          split
          · rename_i r hr1; exact absurd hr1 (h r)
          · rfl
        · simp [h]
    · intro a ha; simp [ha]
    · intro ha
      show (match args "agent" with
        | some (.str a) => a
        | _ => "unknown") = "unknown"
      split
      · rename_i a ha1; exact absurd ha1 (ha a)
      · rfl
  · intro hc w
    unfold saveMessageHandler
    split
    · exact ⟨⟨_, rfl⟩, rfl⟩
    · exact ⟨⟨_, rfl⟩, rfl⟩
    · rename_i content hc1; exact absurd hc1 (hc content)
    · exact ⟨⟨_, rfl⟩, rfl⟩

/-- Witness of C12: a call with a role and no agent on the store that holds one message,
and a call whose `content` is a number. -/
theorem saveMessageHandler_defaults_witness :
    (∃ msg : Message,
        (saveMessageHandler oneSaved roleOnlyArgs 20 .stored).2.prevalenceLayer.Get
            (messageKey oneSaved.messageIDCounter) = some (.message msg) ∧
          msg.Content = "ping" ∧ msg.Role = "user" ∧ msg.Agent = "unknown") ∧
      (∃ e, (saveMessageHandler oneSaved (oneArg "content" (.int 7)) 20 .stored).1 = .err e) ∧
      (saveMessageHandler oneSaved (oneArg "content" (.int 7)) 20 .stored).2 = oneSaved := by
  obtain ⟨h1, _⟩ := saveMessageHandler_defaults oneSaved roleOnlyArgs 20
  obtain ⟨msg, hget, hcontent, hrole, _, _, _, hagent⟩ := h1 "ping" (by decide)
  refine ⟨⟨msg, hget, hcontent, hrole "user" (by decide), hagent ?_⟩, ?_⟩
  · intro a
    have : roleOnlyArgs "agent" = none := by decide
    rw [this]
    exact Option.noConfusion
  · have hbad : ∀ content, oneArg "content" (.int 7) "content" ≠ some (.str content) := by
      intro content
      have : oneArg "content" (.int 7) "content" = some (.int 7) := by decide
      rw [this]
      intro h
      exact Arg.noConfusion (Option.some.inj h)
    exact (saveMessageHandler_defaults oneSaved (oneArg "content" (.int 7)) 20).2 hbad .stored

end MemoryServer
